import Mathlib

/-!
# desafio-multithreading-api: postal-code race server and its query client

A shallow embedding of `server/main.go` (`Resultado`, `handler`, `buscarAPI`) and of
`client/main.go` (`Resultado`, `consultarCEP`), together with the part of Go's
`encoding/json` that the two programs call (`json.Unmarshal` into a
`map[string]interface{}`, `json.NewDecoder(..).Decode` into a `Resultado`,
`json.NewEncoder(..).Encode` of a `Resultado`).

Conventions of the embedding.

* A Go `string` or `[]byte` holding text is a `String` or a `List Char`: a sequence of
  Unicode code points, that is, valid UTF-8.
* A Go `map[string]interface{}` is the list of its entries in increasing key order
  (the order in which `encoding/json` writes a map); the nil map is `none`.
* A decoded JSON number is a `float64` in Go.  Floating-point arithmetic is outside
  this development: a number is carried as its literal, and only the range test of
  `strconv.ParseFloat` is computed (exactly, on the decimal value of the literal).
* A goroutine is embedded as a function of the state it observes when it acts on the
  channel (`Chan`, whether `ctx.Done()` is ready) and of the choice a `select` makes
  between several ready cases. What the handler's own `select` resolves to is an input
  of `handler`.
* The two `main` functions and the thin wrappers `DefaultAPIClient` and
  `DefaultHTTPClient` around `net/http` are not embedded; a client is any function of
  the interface's type.
-/

/-! ## JSON values -/

/-- A JSON text as a tree; also the universe of values that `encoding/json` stores in an
`interface{}` (nil, bool, float64, string, `[]interface{}`, `map[string]interface{}`). -/
inductive JSON where
  | null
  | bool (b : Bool)
  | num (lit : List Char)
  | str (s : String)
  | arr (xs : List JSON)
  | obj (kvs : List (String × JSON))

/-- The entries of a Go `map[string]interface{}`. -/
abbrev GoMap := List (String × JSON)

/-! ## Scanner: `encoding/json`'s grammar -/

/-- The scanner's `isSpace`. -/
def isSpace (c : Char) : Bool :=
  c = ' ' || c = '\t' || c = '\r' || c = '\n'

/-- Drop leading JSON white space. -/
def skipSpace : List Char → List Char
  | [] => []
  | c :: cs => if isSpace c then skipSpace cs else c :: cs

/-- The decimal digits `'0'..'9'`. -/
def isDigit (c : Char) : Bool :=
  decide (48 ≤ c.toNat) && decide (c.toNat ≤ 57)

/-- Value of one hexadecimal digit, as `getu4` reads it. -/
def hexVal (c : Char) : Option Nat :=
  if 48 ≤ c.toNat ∧ c.toNat ≤ 57 then some (c.toNat - 48)
  else if 97 ≤ c.toNat ∧ c.toNat ≤ 102 then some (c.toNat - 87)
  else if 65 ≤ c.toNat ∧ c.toNat ≤ 70 then some (c.toNat - 55)
  else none

/-- Value of four hexadecimal digits (`getu4` after the `\u`). -/
def hex4 (a b c d : Char) : Option Nat :=
  match hexVal a, hexVal b, hexVal c, hexVal d with
  | some x, some y, some z, some w => some (((x * 16 + y) * 16 + z) * 16 + w)
  | _, _, _, _ => none

/-- The character a one-letter escape stands for (`unquote`'s switch). -/
def unescape (c : Char) : Option Char :=
  if c = '"' then some '"'
  else if c = '\\' then some '\\'
  else if c = '/' then some '/'
  else if c = 'b' then some (Char.ofNat 8)
  else if c = 'f' then some (Char.ofNat 12)
  else if c = 'n' then some '\n'
  else if c = 'r' then some '\r'
  else if c = 't' then some '\t'
  else none

/-- UTF-16 surrogate range (`utf16.IsSurrogate`). -/
def isSurrogate (n : Nat) : Bool :=
  decide (0xD800 ≤ n) && decide (n < 0xE000)

/-- The `unicode.ReplacementChar` U+FFFD. -/
def replacementChar : Char := Char.ofNat 0xFFFD

/-- The rune of a `\uXXXX` escape of value `hi`, with the text after it: a high surrogate
followed by an escaped low surrogate is one rune and consumes both, any other surrogate
is the replacement character. Returns the rune and how many further characters it used. -/
def decodeEscape (hi : Nat) (rest : List Char) : Char × Nat :=
  if isSurrogate hi then
    match rest with
    | x :: y :: a :: b :: c :: d :: _ =>
      if x = '\\' ∧ y = 'u' then
        match hex4 a b c d with
        | some lo =>
          if hi < 0xDC00 ∧ 0xDC00 ≤ lo ∧ lo < 0xE000 then
            (Char.ofNat (0x10000 + (hi - 0xD800) * 0x400 + (lo - 0xDC00)), 6)
          else (replacementChar, 0)
        | none => (replacementChar, 0)
      else (replacementChar, 0)
    | _ => (replacementChar, 0)
  else (Char.ofNat hi, 0)

/-- Scan a string literal after its opening quote: the decoded characters and the text after
the closing quote. Control characters and unknown escapes are syntax errors. -/
def scanString : Nat → List Char → Option (List Char × List Char)
  | 0, _ => none
  | _ + 1, [] => none
  | fuel + 1, c :: cs =>
    if c = '"' then some ([], cs)
    else if c = '\\' then
      match cs with
      | [] => none
      | e :: cs1 =>
        if e = 'u' then
          match cs1 with
          | a :: b :: c2 :: d :: rest =>
            match hex4 a b c2 d with
            | none => none
            | some hi =>
              let r := decodeEscape hi rest
              match scanString fuel (rest.drop r.2) with
              | none => none
              | some (s, out) => some (r.1 :: s, out)
          | _ => none
        else
          match unescape e with
          | none => none
          | some ch =>
            match scanString fuel cs1 with
            | none => none
            | some (s, out) => some (ch :: s, out)
    else if c.toNat < 0x20 then none
    else
      match scanString fuel cs with
      | none => none
      | some (s, out) => some (c :: s, out)

/-- Longest prefix of decimal digits, and the rest. -/
def takeDigits : List Char → List Char × List Char
  | [] => ([], [])
  | c :: cs =>
    if isDigit c then ((takeDigits cs).1.cons c, (takeDigits cs).2) else ([], c :: cs)

/-- Exponent part of a number, if one starts here: `e` or `E`, an optional sign, digits. -/
def lexExp (cs : List Char) : Option (List Char × List Char) :=
  match cs with
  | e :: r =>
    if e = 'e' ∨ e = 'E' then
      match r with
      | s :: r1 =>
        if s = '+' ∨ s = '-' then
          match takeDigits r1 with
          | ([], _) => none
          | (ds, out) => some (e :: s :: ds, out)
        else
          match takeDigits r with
          | ([], _) => none
          | (ds, out) => some (e :: ds, out)
      | [] => none
    else some ([], cs)
  | [] => some ([], cs)

/-- Fraction part of a number, if one starts here: `.` and at least one digit. -/
def lexFrac (cs : List Char) : Option (List Char × List Char) :=
  match cs with
  | p :: r =>
    if p = '.' then
      match takeDigits r with
      | ([], _) => none
      | (ds, out) => some (p :: ds, out)
    else some ([], cs)
  | [] => some ([], cs)

/-- Integer part of a number: `0`, or a non-zero digit followed by digits. -/
def lexInt (cs : List Char) : Option (List Char × List Char) :=
  match cs with
  | d :: r =>
    if d = '0' then some ([d], r)
    else if isDigit d then some (d :: (takeDigits r).1, (takeDigits r).2)
    else none
  | [] => none

/-- Scan a number literal: optional minus, integer part, optional fraction, optional
exponent. Returns the literal and the text after it. -/
def lexNumber (cs : List Char) : Option (List Char × List Char) :=
  let signed : List Char × List Char :=
    match cs with
    | m :: r => if m = '-' then ([m], r) else ([], cs)
    | [] => ([], cs)
  match lexInt signed.2 with
  | none => none
  | some (i, r1) =>
    match lexFrac r1 with
    | none => none
    | some (f, r2) =>
      match lexExp r2 with
      | none => none
      | some (e, r3) => some (signed.1 ++ i ++ f ++ e, r3)

/-- Match a fixed word (`true`, `false`, `null`) at the head of the text. -/
def expectWord (w : List Char) (cs : List Char) : Option (List Char) :=
  if cs.take w.length = w then some (cs.drop w.length) else none

mutual
/-- Parse one JSON value, after optional white space; returns the text after it. -/
def parseValue : Nat → List Char → Option (JSON × List Char)
  | 0, _ => none
  | fuel + 1, cs =>
    match skipSpace cs with
    | [] => none
    | c :: r =>
      if c = '{' then
        match skipSpace r with
        | [] => none
        | c1 :: r1 =>
          if c1 = '}' then some (JSON.obj [], r1)
          else
            match parseMembers fuel (c1 :: r1) with
            | none => none
            | some (ms, out) => some (JSON.obj ms, out)
      else if c = '[' then
        match skipSpace r with
        | [] => none
        | c1 :: r1 =>
          if c1 = ']' then some (JSON.arr [], r1)
          else
            match parseElems fuel (c1 :: r1) with
            | none => none
            | some (xs, out) => some (JSON.arr xs, out)
      else if c = '"' then
        match scanString (r.length + 1) r with
        | none => none
        | some (s, out) => some (JSON.str (String.mk s), out)
      else if c = 't' then
        match expectWord ['r', 'u', 'e'] r with
        | none => none
        | some out => some (JSON.bool true, out)
      else if c = 'f' then
        match expectWord ['a', 'l', 's', 'e'] r with
        | none => none
        | some out => some (JSON.bool false, out)
      else if c = 'n' then
        match expectWord ['u', 'l', 'l'] r with
        | none => none
        | some out => some (JSON.null, out)
      else
        match lexNumber (c :: r) with
        | none => none
        | some (lit, out) => some (JSON.num lit, out)
/-- Parse the elements of a non-empty array up to and including the closing bracket. -/
def parseElems : Nat → List Char → Option (List JSON × List Char)
  | 0, _ => none
  | fuel + 1, cs =>
    match parseValue fuel cs with
    | none => none
    | some (v, r) =>
      match skipSpace r with
      | [] => none
      | c :: r1 =>
        if c = ',' then
          match parseElems fuel r1 with
          | none => none
          | some (vs, out) => some (v :: vs, out)
        else if c = ']' then some ([v], r1)
        else none
/-- Parse the members of a non-empty object up to and including the closing brace. -/
def parseMembers : Nat → List Char → Option (List (String × JSON) × List Char)
  | 0, _ => none
  | fuel + 1, cs =>
    match skipSpace cs with
    | [] => none
    | q :: r =>
      if q = '"' then
        match scanString (r.length + 1) r with
        | none => none
        | some (k, r1) =>
          match skipSpace r1 with
          | [] => none
          | c :: r2 =>
            if c = ':' then
              match parseValue fuel r2 with
              | none => none
              | some (v, r3) =>
                match skipSpace r3 with
                | [] => none
                | d :: r4 =>
                  if d = ',' then
                    match parseMembers fuel r4 with
                    | none => none
                    | some (ms, out) => some ((String.mk k, v) :: ms, out)
                  else if d = '}' then some ([(String.mk k, v)], r4)
                  else none
            else none
      else none
end

/-- The scalar kinds, whose end the scanner sees only at the next character. -/
def JSON.isScalar : JSON → Bool
  | JSON.arr _ => false
  | JSON.obj _ => false
  | _ => true

/-- Syntax check of `json.Unmarshal` (`checkValid`): the whole text is one JSON value
surrounded by optional white space. -/
def parseText (data : List Char) : Option JSON :=
  match parseValue (data.length + 1) data with
  | none => none
  | some (v, rest) => if skipSpace rest = [] then some v else none

/-- First value of a stream, as `Decoder.readValue` delimits it: an object or array ends at
its closing bracket, any other value must be followed by white space or the end of the
input. What follows the value stays unread. -/
def parseFirst (data : List Char) : Option JSON :=
  match parseValue (data.length + 1) data with
  | none => none
  | some (v, rest) =>
    if v.isScalar then
      match rest with
      | [] => some v
      | c :: _ => if isSpace c then some v else none
    else some v

/-! ## Decoding into Go values -/

/-- Number denoted by a run of decimal digits. -/
def digitsToNat (ds : List Char) : Nat :=
  ds.foldl (fun n d => 10 * n + (d.toNat - 48)) 0

/-- Least magnitude that `strconv.ParseFloat(s, 64)` rounds to infinity: halfway between the
largest finite float64 and `2 ^ 1024`. -/
def float64Limit : Nat := 2 ^ 1024 - 2 ^ 970

/-- Whether `strconv.ParseFloat` reports a range error on a number literal, computed on the
exact decimal value `mantissa * 10 ^ (exponent - fraction digits)`. -/
def floatOverflows (lit : List Char) : Bool :=
  let unsigned : List Char :=
    match lit with
    | m :: r => if m = '-' then r else lit
    | [] => lit
  let ip := takeDigits unsigned
  let fp : List Char × List Char :=
    match ip.2 with
    | p :: r => if p = '.' then takeDigits r else ([], ip.2)
    | [] => ([], ip.2)
  let ex : Int :=
    match fp.2 with
    | _ :: s :: r =>
      if s = '-' then - (digitsToNat (takeDigits r).1 : Int)
      else if s = '+' then (digitsToNat (takeDigits r).1 : Int)
      else (digitsToNat (takeDigits (s :: r)).1 : Int)
    | _ => 0
  let m := digitsToNat (ip.1 ++ fp.1)
  let e10 : Int := ex - (fp.1.length : Int)
  if 0 ≤ e10 then decide (float64Limit ≤ m * 10 ^ e10.toNat)
  else decide (float64Limit * 10 ^ (-e10).toNat ≤ m)

/-- Go's `<` on strings, the order in which `encoding/json` sorts map keys: lexicographic
on the code points (equivalently, on the UTF-8 bytes). -/
def keyLt : List Char → List Char → Bool
  | [], [] => false
  | [], _ :: _ => true
  | _ :: _, [] => false
  | a :: as, b :: bs =>
    if a.toNat < b.toNat then true
    else if a.toNat = b.toNat then keyLt as bs
    else false

/-- Assignment `m[k] = v` on a map kept in increasing key order. -/
def putKey (k : String) (v : JSON) : GoMap → GoMap
  | [] => [(k, v)]
  | (k1, v1) :: rest =>
    if keyLt k.data k1.data then (k, v) :: (k1, v1) :: rest
    else if k = k1 then (k, v) :: rest
    else (k1, v1) :: putKey k v rest

mutual
/-- Decoding of a JSON value into an `interface{}` (`valueInterface`): numbers become a
float64 (range error otherwise), objects become maps, where a repeated key keeps its last
value. The first error met is the one `Unmarshal` returns. -/
def toInterface : JSON → Except String JSON
  | JSON.null => Except.ok JSON.null
  | JSON.bool b => Except.ok (JSON.bool b)
  | JSON.num lit =>
    if floatOverflows lit then
      Except.error ("json: cannot unmarshal number " ++ String.mk lit ++
        " into Go value of type float64")
    else Except.ok (JSON.num lit)
  | JSON.str s => Except.ok (JSON.str s)
  | JSON.arr xs =>
    match toInterfaceList xs with
    | Except.error e => Except.error e
    | Except.ok ys => Except.ok (JSON.arr ys)
  | JSON.obj kvs =>
    match toInterfaceMap kvs [] with
    | Except.error e => Except.error e
    | Except.ok m => Except.ok (JSON.obj m)
/-- Decoding of the elements of an array, in order. -/
def toInterfaceList : List JSON → Except String (List JSON)
  | [] => Except.ok []
  | x :: xs =>
    match toInterface x with
    | Except.error e => Except.error e
    | Except.ok y =>
      match toInterfaceList xs with
      | Except.error e => Except.error e
      | Except.ok ys => Except.ok (y :: ys)
/-- Decoding of the members of an object into the map `acc`, in order. -/
def toInterfaceMap : List (String × JSON) → GoMap → Except String GoMap
  | [], acc => Except.ok acc
  | (k, v) :: rest, acc =>
    match toInterface v with
    | Except.error e => Except.error e
    | Except.ok w => toInterfaceMap rest (putKey k w acc)
end

/-- Description of a syntax error. `encoding/json` names the offending character and its
offset; the callers here only test the error against nil and copy its description. -/
def syntaxErrorText : String := "invalid character looking for beginning of value"

/-- Kind of a JSON value as `UnmarshalTypeError.Value` names it. -/
def JSON.kind : JSON → String
  | JSON.null => "null"
  | JSON.bool _ => "bool"
  | JSON.num _ => "number"
  | JSON.str _ => "string"
  | JSON.arr _ => "array"
  | JSON.obj _ => "object"

/-- The call `json.Unmarshal(body, &data)` with `var data map[string]interface{}`: a
syntax check of the whole text, then the value is stored in the map. A JSON object fills a
new map; JSON `null` sets the map to nil and is no error ("the JSON null value unmarshals
into an interface, map, pointer, or slice by setting that Go value to nil"); any other
kind is an `UnmarshalTypeError`. -/
def jsonUnmarshalMap (body : List Char) : Except String (Option GoMap) :=
  match parseText body with
  | none => Except.error syntaxErrorText
  | some JSON.null => Except.ok none
  | some (JSON.obj kvs) =>
    match toInterfaceMap kvs [] with
    | Except.error e => Except.error e
    | Except.ok m => Except.ok (some m)
  | some v =>
    Except.error ("json: cannot unmarshal " ++ v.kind ++
      " into Go value of type map[string]interface \x7b\x7d")

/-! ## Encoding -/

/-- Lower-case hexadecimal digit of a number below sixteen. -/
def hexDigit (n : Nat) : Char :=
  if n < 10 then Char.ofNat (48 + n) else Char.ofNat (87 + n)

/-- Encoding of one character inside a string literal (`appendString` with HTML escaping,
the encoder's default). -/
def escapeChar (c : Char) : List Char :=
  if c = '"' then ['\\', '"']
  else if c = '\\' then ['\\', '\\']
  else if c.toNat = 8 then ['\\', 'b']
  else if c.toNat = 12 then ['\\', 'f']
  else if c = '\n' then ['\\', 'n']
  else if c = '\r' then ['\\', 'r']
  else if c = '\t' then ['\\', 't']
  else if c.toNat < 0x20 ∨ c = '<' ∨ c = '>' ∨ c = '&' then
    ['\\', 'u', '0', '0', hexDigit (c.toNat / 16), hexDigit (c.toNat % 16)]
  else if c.toNat = 0x2028 ∨ c.toNat = 0x2029 then
    ['\\', 'u', '2', '0', '2', hexDigit (c.toNat % 16)]
  else [c]

/-- Escaped characters of a string, without the quotes. -/
def escapeChars : List Char → List Char
  | [] => []
  | c :: cs => escapeChar c ++ escapeChars cs

/-- A string as a JSON string literal. -/
def quote (s : String) : List Char :=
  '"' :: (escapeChars s.data ++ ['"'])

mutual
/-- The JSON text `encoding/json` writes for a value held in an `interface{}`. -/
def marshalValue : JSON → List Char
  | JSON.null => ['n', 'u', 'l', 'l']
  | JSON.bool b => if b then ['t', 'r', 'u', 'e'] else ['f', 'a', 'l', 's', 'e']
  | JSON.num lit => lit
  | JSON.str s => quote s
  | JSON.arr xs => '[' :: (marshalElems xs ++ [']'])
  | JSON.obj kvs => '{' :: (marshalMembers kvs ++ ['}'])
/-- Elements of an array, comma separated. -/
def marshalElems : List JSON → List Char
  | [] => []
  | x :: xs =>
    match xs with
    | [] => marshalValue x
    | _ :: _ => marshalValue x ++ ',' :: marshalElems xs
/-- Entries of a map, comma separated, in the stored (key) order. -/
def marshalMembers : List (String × JSON) → List Char
  | [] => []
  | (k, v) :: rest =>
    match rest with
    | [] => quote k ++ ':' :: marshalValue v
    | _ :: _ => quote k ++ ':' :: (marshalValue v ++ ',' :: marshalMembers rest)
end

/-- A `map[string]interface{}` field: `null` for the nil map. -/
def marshalMap : Option GoMap → List Char
  | none => ['n', 'u', 'l', 'l']
  | some m => marshalValue (JSON.obj m)

/-! ## server/main.go -/

namespace Server

/-- The envelope `Resultado` of the server: `source`, `data`, and `error` (omitted from
the JSON when empty). -/
structure Resultado where
  Source : String
  Data : Option GoMap
  Error : String

/-- What `json.NewEncoder(w).Encode(res)` writes for a `Resultado`: the fields in
declaration order under their tags, `error` left out when empty (`omitempty`), and a
final newline. -/
def encodeResultado (res : Resultado) : List Char :=
  "\x7b\"source\":".data ++ quote res.Source ++ ",\"data\":".data ++ marshalMap res.Data ++
    (if res.Error = "" then [] else ",\"error\":".data ++ quote res.Error) ++ ['}', '\n']

/-- An `*http.Request` as `buscarAPI` builds it: the method and the parsed URL, held as the
text `req.URL.String()` gives. -/
structure Request where
  Method : String
  URL : String

/-- An upstream `*http.Response`: its status code and what reading `resp.Body` to the end
gives, the bytes or a read error. -/
structure Response where
  StatusCode : Nat
  Body : Except String (List Char)

/-- The interface `APIClient`: `Do(req)` returns a response or an error. -/
abbrev APIClient := Request → Except String Response

/-- The part of a `context.Context` that `buscarAPI` observes: whether `ctx.Done()` is
ready for receiving when the goroutine reaches its `select`. -/
structure Context where
  done : Bool

/-- A `chan Resultado`: buffered envelopes, buffer capacity, whether a receiver is parked
on it, and the envelope a sender has handed to that receiver, if any. -/
structure Chan where
  buf : List Resultado
  cap : Nat
  recvWaiting : Bool
  handed : Option Resultado := none

/-- A send on the channel can proceed: a receiver is parked or the buffer has room. -/
def Chan.canSend (ch : Chan) : Bool :=
  ch.recvWaiting || decide (ch.buf.length < ch.cap)

/-- How the goroutine's single send ended. -/
inductive Delivery where
  | sent (e : Resultado)
  | abandoned
  | parked (e : Resultado)

/-- The choice of a `select` among ready cases (Go picks one pseudo-randomly). -/
inductive Pick where
  | send
  | done

/-- The statement `ch <- e`: hands `e` to a parked receiver, or appends it to the buffer,
or parks the goroutine on a full channel. -/
def chanSend (ch : Chan) (e : Resultado) : Delivery × Chan :=
  if ch.recvWaiting then (Delivery.sent e, { ch with recvWaiting := false, handed := some e })
  else if ch.buf.length < ch.cap then (Delivery.sent e, { ch with buf := ch.buf ++ [e] })
  else (Delivery.parked e, ch)

/-- The statement `select { case ch <- e: case <-ctx.Done(): }`. When only one case is
ready it is taken, when both are ready `pick` decides, when none is the goroutine parks. -/
def selectSend (ctx : Context) (pick : Pick) (ch : Chan) (e : Resultado) : Delivery × Chan :=
  if ch.canSend then
    if ctx.done then
      match pick with
      | Pick.send => chanSend ch e
      | Pick.done => (Delivery.abandoned, ch)
    else chanSend ch e
  else if ctx.done then (Delivery.abandoned, ch)
  else (Delivery.parked e, ch)

/-- The calls `buscarAPI` makes, in order. -/
inductive Op where
  | newRequest (method url : String)
  | clientDo (req : Request)
  | readAll
  | unmarshal (body : List Char)
  | plainSend (e : Resultado)
  | selectSend (e : Resultado)

/-- One run of `buscarAPI`: the calls made, how the send ended, the channel afterwards. -/
structure Run where
  ops : List Op
  delivery : Delivery
  ch : Chan

/-- The function `buscarAPI(ctx, source, url, ch, apiClient)`. `newRequest` stands for
`http.NewRequestWithContext(ctx, method, url, nil)`, `pick` for the scheduler's choice in
the final `select`. The four error returns send with a plain `ch <- ..`, the success
path sends inside the `select`. The response's status code is never read. The deferred
`resp.Body.Close()` does not bear on what is sent and is left out. -/
def buscarAPI (newRequest : String → String → Except String Request) (pick : Pick)
    (ctx : Context) (source url : String) (ch : Chan) (apiClient : APIClient) : Run :=
  match newRequest "GET" url with
  | Except.error err =>
    let e : Resultado := { Source := source, Data := none, Error := err }
    { ops := [Op.newRequest "GET" url, Op.plainSend e],
      delivery := (chanSend ch e).1, ch := (chanSend ch e).2 }
  | Except.ok req =>
    match apiClient req with
    | Except.error err =>
      let e : Resultado := { Source := source, Data := none, Error := err }
      { ops := [Op.newRequest "GET" url, Op.clientDo req, Op.plainSend e],
        delivery := (chanSend ch e).1, ch := (chanSend ch e).2 }
    | Except.ok resp =>
      match resp.Body with
      | Except.error err =>
        let e : Resultado := { Source := source, Data := none, Error := err }
        { ops := [Op.newRequest "GET" url, Op.clientDo req, Op.readAll, Op.plainSend e],
          delivery := (chanSend ch e).1, ch := (chanSend ch e).2 }
      | Except.ok body =>
        match jsonUnmarshalMap body with
        | Except.error err =>
          let e : Resultado := { Source := source, Data := none, Error := err }
          { ops := [Op.newRequest "GET" url, Op.clientDo req, Op.readAll, Op.unmarshal body,
              Op.plainSend e],
            delivery := (chanSend ch e).1, ch := (chanSend ch e).2 }
        | Except.ok data =>
          let e : Resultado := { Source := source, Data := data, Error := "" }
          { ops := [Op.newRequest "GET" url, Op.clientDo req, Op.readAll, Op.unmarshal body,
              Op.selectSend e],
            delivery := (selectSend ctx pick ch e).1, ch := (selectSend ctx pick ch e).2 }

/-- The inbound request as `handler` reads it: the parsed query, `r.URL.Query()`. -/
structure HttpRequest where
  query : List (String × List String)

/-- The method `url.Values.Get`: the first value of the key, or the empty string. -/
def queryGet (q : List (String × List String)) (key : String) : String :=
  match q.lookup key with
  | some (v :: _) => v
  | _ => ""

/-- What the handler has written to its `http.ResponseWriter`. -/
structure ResponseWriter where
  code : Nat
  header : List (String × String)
  body : List Char

/-- The function `http.Error(w, msg, code)`: plain-text headers, the status, the message
and a newline. -/
def httpError (msg : String) (code : Nat) : ResponseWriter :=
  { code := code,
    header := [("Content-Type", "text/plain; charset=utf-8"),
      ("X-Content-Type-Options", "nosniff")],
    body := msg.data ++ ['\n'] }

/-- What the handler's `select` resolves to: an envelope received from `resultChan`, or the
readiness of `ctx.Done()`. -/
inductive Dispatch where
  | received (res : Resultado)
  | deadline

/-- The dispatcher steps of `handler`, in order. -/
inductive HandlerOp where
  | withTimeout (nanoseconds : Nat)
  | makeChan (capacity : Nat)
  | go (source url : String)
  | selectRace
  | cancel

/-- The function `handler(w, r)`. `race` is what the `select` on `resultChan` and
`ctx.Done()` resolves to in this run; it is consulted only once the `select` is reached.
Returns what was written to `w` and the dispatcher steps taken. -/
def handler (r : HttpRequest) (race : Dispatch) : ResponseWriter × List HandlerOp :=
  let cep := queryGet r.query "cep"
  if cep = "" then (httpError "cep é obrigatório" 400, [])
  else
    let brasilAPI := "https://brasilapi.com.br/api/cep/v1/" ++ cep
    let viaCepAPI := "http://viacep.com.br/ws/" ++ cep ++ "/json/"
    let launched : List HandlerOp :=
      [HandlerOp.withTimeout 1000000000, HandlerOp.makeChan 2,
        HandlerOp.go "BrasilAPI" brasilAPI, HandlerOp.go "ViaCEP" viaCepAPI,
        HandlerOp.selectRace]
    match race with
    | Dispatch.received res =>
      ({ code := 200, header := [("Content-Type", "application/json")],
         body := encodeResultado res }, launched ++ [HandlerOp.cancel])
    | Dispatch.deadline =>
      (httpError "timeout: nenhuma API respondeu em 1s" 504, launched ++ [HandlerOp.cancel])

end Server

/-! ## client/main.go -/

namespace Client

/-- The envelope `Resultado` of the client, declared with the same fields and tags as the
server's. -/
structure Resultado where
  Source : String
  Data : Option GoMap
  Error : String

/-- The fields of `Resultado`, by JSON name. -/
inductive Field where
  | source
  | data
  | error

/-- Case folding of a rune as far as it can reach an ASCII letter (`foldRune`): lower-case
ASCII, the long s and the Kelvin sign fold to the upper-case letter. -/
def foldRune (c : Char) : Char :=
  if 97 ≤ c.toNat ∧ c.toNat ≤ 122 then Char.ofNat (c.toNat - 32)
  else if c.toNat = 0x17F then 'S'
  else if c.toNat = 0x212A then 'K'
  else c

/-- The struct field an object key selects: the exact tag name, else a case-insensitive
match; no field for any other key. -/
def fieldOf (key : String) : Option Field :=
  if key = "source" then some Field.source
  else if key = "data" then some Field.data
  else if key = "error" then some Field.error
  else if key.data.map foldRune = "SOURCE".data then some Field.source
  else if key.data.map foldRune = "DATA".data then some Field.data
  else if key.data.map foldRune = "ERROR".data then some Field.error
  else none

/-- Store a JSON value in a `string` field: a string is assigned, `null` leaves the field
as it is, any other kind is an `UnmarshalTypeError`. -/
def storeString (field : String) (cur : String) (v : JSON) : Except String String :=
  match v with
  | JSON.str s => Except.ok s
  | JSON.null => Except.ok cur
  | _ =>
    Except.error ("json: cannot unmarshal " ++ v.kind ++ " into Go struct field Resultado." ++
      field ++ " of type string")

/-- Store a JSON value in the `map[string]interface{}` field: an object is decoded into the
map already there (a new one if nil), `null` makes it nil, any other kind is an
`UnmarshalTypeError`. -/
def storeMap (cur : Option GoMap) (v : JSON) : Except String (Option GoMap) :=
  match v with
  | JSON.obj kvs =>
    match toInterfaceMap kvs (cur.getD []) with
    | Except.error e => Except.error e
    | Except.ok m => Except.ok (some m)
  | JSON.null => Except.ok none
  | _ =>
    Except.error ("json: cannot unmarshal " ++ v.kind ++
      " into Go struct field Resultado.data of type map[string]interface \x7b\x7d")

/-- Decode the members of the top-level object into the struct, in order; unknown keys
are skipped. -/
def storeMembers : List (String × JSON) → Resultado → Except String Resultado
  | [], res => Except.ok res
  | (k, v) :: rest, res =>
    match fieldOf k with
    | none => storeMembers rest res
    | some Field.source =>
      match storeString "source" res.Source v with
      | Except.error e => Except.error e
      | Except.ok s => storeMembers rest { res with Source := s }
    | some Field.data =>
      match storeMap res.Data v with
      | Except.error e => Except.error e
      | Except.ok m => storeMembers rest { res with Data := m }
    | some Field.error =>
      match storeString "error" res.Error v with
      | Except.error e => Except.error e
      | Except.ok s => storeMembers rest { res with Error := s }

/-- The call `json.NewDecoder(resp.Body).Decode(&resultado)` on a zero `resultado`: the
first JSON value of the body is read and stored in the struct. An object fills the
fields, `null` leaves the struct untouched, any other kind is an `UnmarshalTypeError`. -/
def decodeResultado (body : List Char) : Except String Resultado :=
  match parseFirst body with
  | none => Except.error syntaxErrorText
  | some JSON.null => Except.ok { Source := "", Data := none, Error := "" }
  | some (JSON.obj kvs) => storeMembers kvs { Source := "", Data := none, Error := "" }
  | some v =>
    Except.error ("json: cannot unmarshal " ++ v.kind ++
      " into Go value of type main.Resultado")

/-- The server's `*http.Response` as the client reads it: status code, status line text,
and the bytes of the body. -/
structure Response where
  StatusCode : Nat
  Status : String
  Body : List Char

/-- The interface `HTTPClient`: `Get(url)` returns a response or an error. -/
abbrev HTTPClient := String → Except String Response

/-- One data line, `fmt.Printf("  %s: %v\n", k, v)`; `fmtValue` is the `%v` verb of `fmt`. -/
def dataLine (fmtValue : JSON → String) (kv : String × JSON) : String :=
  "  " ++ kv.1 ++ ": " ++ fmtValue kv.2 ++ "\n"

/-- The function `consultarCEP(cep, client)`: what it prints to standard output and the
error it returns (`none` for nil). The data lines are listed in key order; Go ranges over
the map in an unspecified order. -/
def consultarCEP (fmtValue : JSON → String) (cep : String) (client : HTTPClient) :
    List String × Option String :=
  let url := "http://localhost:8080/consulta?cep=" ++ cep
  match client url with
  | Except.error err => ([], some ("erro ao chamar o servidor: " ++ err))
  | Except.ok resp =>
    if resp.StatusCode ≠ 200 then ([], some ("erro do servidor: " ++ resp.Status))
    else
      match decodeResultado resp.Body with
      | Except.error err => ([], some ("erro ao decodificar resposta: " ++ err))
      | Except.ok resultado =>
        (("✅ Resposta recebida da: " ++ resultado.Source ++ "\n") ::
            (resultado.Data.getD []).map (dataLine fmtValue), none)

end Client

/-! ## Values that decoding produces -/

/-- The text after a number ends the number: it is empty or starts with a character that
cannot continue a literal. -/
def endsNumber : List Char → Bool
  | [] => true
  | c :: _ => !(isDigit c || decide (c = '.') || decide (c = 'e') || decide (c = 'E'))

/-- The keys of a map are listed in strictly increasing order. -/
def keysAscend : List (String × JSON) → Bool
  | [] => true
  | (k, _) :: rest => rest.all (fun p => keyLt k.data p.1.data) && keysAscend rest

mutual
/-- The values `encoding/json` stores in an `interface{}`: every number is a literal of the
JSON grammar inside the float64 range, every map lists its keys in increasing order. -/
def JSON.canonical : JSON → Bool
  | JSON.null => true
  | JSON.bool _ => true
  | JSON.num lit => decide (lexNumber lit = some (lit, [])) && !floatOverflows lit
  | JSON.str _ => true
  | JSON.arr xs => canonicalList xs
  | JSON.obj kvs => keysAscend kvs && canonicalMembers kvs
/-- All elements are canonical. -/
def canonicalList : List JSON → Bool
  | [] => true
  | x :: xs => x.canonical && canonicalList xs
/-- All member values are canonical. -/
def canonicalMembers : List (String × JSON) → Bool
  | [] => true
  | (_, v) :: rest => v.canonical && canonicalMembers rest
end

/-- The `Data` of an envelope is nil or a canonical map. -/
def canonicalData : Option GoMap → Bool
  | none => true
  | some m => (JSON.obj m).canonical

/-- The JSON value of a `map[string]interface{}` field: `null` for the nil map. -/
def dataValue : Option GoMap → JSON
  | none => JSON.null
  | some m => JSON.obj m

mutual
/-- Every number in the value is a literal of the JSON grammar, as the scanner leaves it. -/
def JSON.lexed : JSON → Bool
  | JSON.null => true
  | JSON.bool _ => true
  | JSON.num lit => decide (lexNumber lit = some (lit, []))
  | JSON.str _ => true
  | JSON.arr xs => lexedList xs
  | JSON.obj kvs => lexedMembers kvs
/-- All elements are lexed. -/
def lexedList : List JSON → Bool
  | [] => true
  | x :: xs => x.lexed && lexedList xs
/-- All member values are lexed. -/
def lexedMembers : List (String × JSON) → Bool
  | [] => true
  | (_, v) :: rest => v.lexed && lexedMembers rest
end

/-! ## The test doubles of `server/mock` and `client/mock` -/

namespace Server

/-- Number of send statements among the calls of a run. -/
def countSends : List Op → Nat
  | [] => 0
  | Op.plainSend _ :: ops => countSends ops + 1
  | Op.selectSend _ :: ops => countSends ops + 1
  | _ :: ops => countSends ops

/-- Request construction for a URL that `net/url` accepts and writes back unchanged (a URL
already in the form `URL.String()` gives, as the URLs of the tests are). -/
def plainRequest (method url : String) : Except String Request :=
  Except.ok { Method := method, URL := url }

/-- The test double `mock.MockAPIClient`: canned responses, errors and delays, by URL. -/
structure MockAPIClient where
  responses : List (String × Response)
  errors : List (String × String)
  delays : List (String × Nat)

/-- The constructor `NewMockAPIClient`, with empty maps. -/
def NewMockAPIClient : MockAPIClient :=
  { responses := [], errors := [], delays := [] }

/-- The method `SetResponse`. -/
def MockAPIClient.SetResponse (m : MockAPIClient) (url : String) (response : Response) :
    MockAPIClient :=
  { m with responses := (url, response) :: m.responses }

/-- The method `SetError`. -/
def MockAPIClient.SetError (m : MockAPIClient) (url : String) (err : String) : MockAPIClient :=
  { m with errors := (url, err) :: m.errors }

/-- The method `SetDelay`. -/
def MockAPIClient.SetDelay (m : MockAPIClient) (url : String) (delay : Nat) : MockAPIClient :=
  { m with delays := (url, delay) :: m.delays }

/-- The method `MockAPIClient.Do`: the canned error of `req.URL.String()` if there is one,
else its canned response, else an error. A configured delay postpones the answer and does
not change it. -/
def MockAPIClient.Do (m : MockAPIClient) : APIClient :=
  fun req =>
    match m.errors.lookup req.URL with
    | some err => Except.error err
    | none =>
      match m.responses.lookup req.URL with
      | some resp => Except.ok resp
      | none => Except.error "URL não encontrada no mock"

/-- A mock with one canned response, as the tests set it up. -/
def mockResponse (url : String) (code : Nat) (body : String) : APIClient :=
  (NewMockAPIClient.SetResponse url { StatusCode := code, Body := Except.ok body.data }).Do

/-- A mock with one canned error, as the tests set it up. -/
def mockError (url : String) (err : String) : APIClient :=
  (NewMockAPIClient.SetError url err).Do

end Server

namespace Client

/-- The test double `mock.MockHTTPClient`: canned responses and errors, by URL. -/
structure MockHTTPClient where
  responses : List (String × Response)
  errors : List (String × String)

/-- The constructor `NewMockHTTPClient`, with empty maps. -/
def NewMockHTTPClient : MockHTTPClient :=
  { responses := [], errors := [] }

/-- The method `SetResponse`. -/
def MockHTTPClient.SetResponse (m : MockHTTPClient) (url : String) (response : Response) :
    MockHTTPClient :=
  { m with responses := (url, response) :: m.responses }

/-- The method `SetError`. -/
def MockHTTPClient.SetError (m : MockHTTPClient) (url : String) (err : String) :
    MockHTTPClient :=
  { m with errors := (url, err) :: m.errors }

/-- The method `MockHTTPClient.Get`: the canned error of the URL if there is one, else its
canned response, else an error. -/
def MockHTTPClient.Get (m : MockHTTPClient) : HTTPClient :=
  fun url =>
    match m.errors.lookup url with
    | some err => Except.error err
    | none =>
      match m.responses.lookup url with
      | some resp => Except.ok resp
      | none => Except.error "URL não encontrada no mock"

/-- A mock with one canned response, as the tests set it up. -/
def mockResponse (url : String) (code : Nat) (status body : String) : HTTPClient :=
  (NewMockHTTPClient.SetResponse url
    { StatusCode := code, Status := status, Body := body.data }).Get

/-- A stand-in for the `%v` verb of `fmt`, exact on strings, booleans and nil. -/
def showValue : JSON → String
  | JSON.str s => s
  | JSON.null => "<nil>"
  | JSON.bool b => if b then "true" else "false"
  | JSON.num lit => String.mk lit
  | JSON.arr _ => "[...]"
  | JSON.obj _ => "map[...]"

end Client

/-! ## The race of one request -/

namespace Server

/-- The choice of the handler's `select` among ready cases. -/
inductive RecvPick where
  | recv
  | done

/-- The handler's statement `select { case res = <-resultChan: case <-ctx.Done(): }`. With an
envelope buffered and the context not done it receives the oldest envelope; with both cases
ready `pick` decides; with only the context done it takes the deadline; with neither ready
the handler parks as a receiver (`none`). -/
def selectRecv (ctx : Context) (pick : RecvPick) (ch : Chan) : Option Dispatch × Chan :=
  match ch.buf with
  | e :: rest =>
    if ctx.done then
      match pick with
      | RecvPick.recv => (some (Dispatch.received e), { ch with buf := rest })
      | RecvPick.done => (some Dispatch.deadline, ch)
    else (some (Dispatch.received e), { ch with buf := rest })
  | [] =>
    if ctx.done then (some Dispatch.deadline, ch)
    else (none, { ch with recvWaiting := true })

/-- The two upstream services that `handler` queries. -/
inductive Upstream where
  | brasilAPI
  | viaCEP
  deriving DecidableEq

/-- The source name `handler` passes to `buscarAPI`. -/
def Upstream.source : Upstream → String
  | Upstream.brasilAPI => "BrasilAPI"
  | Upstream.viaCEP => "ViaCEP"

/-- The URL `handler` builds for the upstream. -/
def Upstream.url (cep : String) : Upstream → String
  | Upstream.brasilAPI => "https://brasilapi.com.br/api/cep/v1/" ++ cep
  | Upstream.viaCEP => "http://viacep.com.br/ws/" ++ cep ++ "/json/"

/-- What happens during one request, in the order in which it happens: a `buscarAPI`
goroutine reaches its send, the one-second timer fires, the handler executes its `select`. -/
inductive Event where
  | arrive (up : Upstream) (pick : Pick)
  | deadline
  | handlerSelect (pick : RecvPick)

/-- Where the handler stands: goroutines launched and `select` not yet executed, parked in
the `select`, or past it with its outcome. -/
inductive Progress where
  | launched
  | waiting
  | resolved (d : Dispatch)

/-- The shared state of one request: `resultChan`, the context, the goroutines that have not
sent yet, and the handler's progress. -/
structure Race where
  ch : Chan
  ctx : Context
  pending : List Upstream
  handler : Progress

/-- The state after `handler` has made the context and the channel of capacity 2 and
launched its two goroutines. -/
def Race.start : Race :=
  { ch := { buf := [], cap := 2, recvWaiting := false },
    ctx := { done := false },
    pending := [Upstream.brasilAPI, Upstream.viaCEP],
    handler := Progress.launched }

/-- One event. A goroutine runs `buscarAPI` on the channel and context as they are; if the
handler is parked, the envelope handed to it resolves its `select`. The timer makes the
context done, which resolves a parked handler to the deadline. The handler's `select`
resolves at once or parks. Once the `select` is resolved the outcome stands: what the
other goroutine still sends is never read. -/
def Race.step (newRequest : String → String → Except String Request) (apiClient : APIClient)
    (cep : String) (s : Race) (ev : Event) : Race :=
  match s.handler with
  | Progress.resolved _ => s
  | Progress.launched =>
    match ev with
    | Event.arrive up pick =>
      if up ∈ s.pending then
        { s with
          ch := (buscarAPI newRequest pick s.ctx up.source (up.url cep) s.ch apiClient).ch,
          pending := s.pending.erase up }
      else s
    | Event.deadline => { s with ctx := { done := true } }
    | Event.handlerSelect pick =>
      match (selectRecv s.ctx pick s.ch).1 with
      | some d => { s with ch := (selectRecv s.ctx pick s.ch).2, handler := Progress.resolved d }
      | none => { s with ch := (selectRecv s.ctx pick s.ch).2, handler := Progress.waiting }
  | Progress.waiting =>
    match ev with
    | Event.arrive up pick =>
      if up ∈ s.pending then
        match (buscarAPI newRequest pick s.ctx up.source (up.url cep) s.ch apiClient).ch.handed with
        | some e =>
          { s with
            ch := { (buscarAPI newRequest pick s.ctx up.source (up.url cep) s.ch apiClient).ch
                    with handed := none },
            pending := s.pending.erase up,
            handler := Progress.resolved (Dispatch.received e) }
        | none =>
          { s with
            ch := (buscarAPI newRequest pick s.ctx up.source (up.url cep) s.ch apiClient).ch,
            pending := s.pending.erase up }
      else s
    | Event.deadline =>
      { s with
        ctx := { done := true },
        ch := { s.ch with recvWaiting := false },
        handler := Progress.resolved Dispatch.deadline }
    | Event.handlerSelect _ => s

/-- The state after a sequence of events. -/
def race (newRequest : String → String → Except String Request) (apiClient : APIClient)
    (cep : String) (events : List Event) : Race :=
  events.foldl (Race.step newRequest apiClient cep) Race.start

/-- The function `handlerWithMock(w, r, apiClient)` of the tests, which is `handler` with
the client as a parameter, run under a sequence of events: the response written, or `none`
if the handler is still in its `select` when the events end. -/
def handlerWithMock (newRequest : String → String → Except String Request)
    (r : HttpRequest) (apiClient : APIClient) (events : List Event) :
    Option (ResponseWriter × List HandlerOp) :=
  if queryGet r.query "cep" = "" then some (handler r Dispatch.deadline)
  else
    match (race newRequest apiClient (queryGet r.query "cep") events).handler with
    | Progress.resolved d => some (handler r d)
    | _ => none

end Server

/-! ## Facts about the decoder -/

theorem mem_keys_putKey (k : String) (v : JSON) (m : GoMap) (x : String) :
    x ∈ (putKey k v m).map Prod.fst ↔ x = k ∨ x ∈ m.map Prod.fst := by
  induction m with
  | nil => simp [putKey]
  | cons hd tl ih =>
    obtain ⟨k1, v1⟩ := hd
    unfold putKey
    split_ifs with h1 h2
    · simp
    · subst h2; simp
    · simp only [List.map_cons, List.mem_cons, ih]; tauto

theorem mem_keys_toInterfaceMap (kvs : List (String × JSON)) :
    ∀ (acc m : GoMap), toInterfaceMap kvs acc = Except.ok m →
      ∀ x, x ∈ m.map Prod.fst ↔ x ∈ kvs.map Prod.fst ∨ x ∈ acc.map Prod.fst := by
  induction kvs with
  | nil =>
    intro acc m h x
    simp [toInterfaceMap] at h
    subst h; simp
  | cons hd tl ih =>
    intro acc m h x
    obtain ⟨k, v⟩ := hd
    rw [toInterfaceMap] at h
    split at h
    · exact absurd h (by simp)
    · rename_i w hw
      rw [ih _ _ h x, mem_keys_putKey]
      simp only [List.map_cons, List.mem_cons]
      tauto

/-- A body that is one JSON object decodes to what `toInterfaceMap` makes of its members. -/
theorem jsonUnmarshalMap_obj (body : List Char) (kvs : List (String × JSON))
    (h : parseText body = some (JSON.obj kvs)) :
    jsonUnmarshalMap body =
      (match toInterfaceMap kvs [] with
        | Except.error e => Except.error e
        | Except.ok m => Except.ok (some m)) := by
  simp [jsonUnmarshalMap, h]

/-- The decoder returns a map only for a body that is one JSON object. -/
theorem jsonUnmarshalMap_some (body : List Char) (m : GoMap)
    (h : jsonUnmarshalMap body = Except.ok (some m)) :
    ∃ kvs, parseText body = some (JSON.obj kvs) ∧ toInterfaceMap kvs [] = Except.ok m := by
  unfold jsonUnmarshalMap at h
  split at h
  · exact absurd h (by simp)
  · exact absurd h (by simp)
  · rename_i kvs hp
    refine ⟨kvs, hp, ?_⟩
    split at h
    · exact absurd h (by simp)
    · rename_i m1 hm
      simp only [Except.ok.injEq, Option.some.injEq] at h
      rw [hm, h]
  · exact absurd h (by simp)

namespace Server

/-! ## The claims about `buscarAPI` -/

/-- C2: when request construction, the upstream call and the body read succeed, the body is
one JSON object that decodes to `data`, the context is not cancelled and the channel can
take a send, `buscarAPI` delivers the envelope with the given source, `Data` equal to the
decoded mapping and an empty `Error`; the keys of that mapping are exactly the keys of the
body's object, and the envelope is appended to the buffer unless a receiver took it. -/
theorem buscarAPI_success_envelope
    (newRequest : String → String → Except String Request) (pick : Pick) (ctx : Context)
    (source url : String) (ch : Chan) (apiClient : APIClient)
    (req : Request) (resp : Response) (body : List Char)
    (kvs : List (String × JSON)) (data : GoMap)
    (hreq : newRequest "GET" url = Except.ok req)
    (hdo : apiClient req = Except.ok resp)
    (hbody : resp.Body = Except.ok body)
    (hparse : parseText body = some (JSON.obj kvs))
    (hdec : toInterfaceMap kvs [] = Except.ok data)
    (hctx : ctx.done = false) (hcap : ch.canSend = true) :
    (buscarAPI newRequest pick ctx source url ch apiClient).delivery
        = Delivery.sent { Source := source, Data := some data, Error := "" }
      ∧ (∀ k, k ∈ data.map Prod.fst ↔ k ∈ kvs.map Prod.fst)
      ∧ (ch.recvWaiting = false →
          (buscarAPI newRequest pick ctx source url ch apiClient).ch.buf
            = ch.buf ++ [{ Source := source, Data := some data, Error := "" }]) := by
  have hj : jsonUnmarshalMap body = Except.ok (some data) := by
    rw [jsonUnmarshalMap_obj body kvs hparse, hdec]
  refine ⟨?_, ?_, ?_⟩
  · simp only [buscarAPI, hreq, hdo, hbody, hj, selectSend, hcap, hctx, chanSend]
    simp only [Chan.canSend, Bool.or_eq_true, decide_eq_true_eq] at hcap
    by_cases hr : ch.recvWaiting = true
    · simp [hr]
    · rcases hcap with h | h
      · exact absurd h hr
      · simp [hr, h]
  · intro k
    have := mem_keys_toInterfaceMap kvs [] data hdec k
    simpa using this
  · intro hr
    simp only [Chan.canSend, hr, Bool.false_or, decide_eq_true_eq] at hcap
    simp [buscarAPI, hreq, hdo, hbody, hj, selectSend, Chan.canSend, hctx, chanSend, hr, hcap]

/-- The run of `TestBuscarAPI_Success` satisfies C2. -/
theorem buscarAPI_success_envelope_witness :
    (buscarAPI plainRequest Pick.send { done := false } "TestAPI" "https://test.com/api"
        { buf := [], cap := 1, recvWaiting := false }
        (mockResponse "https://test.com/api" 200 "\x7b\"cep\":\"01310-100\",\"city\":\"São Paulo\"\x7d")).delivery
      = Delivery.sent
          { Source := "TestAPI",
            Data := some [("cep", JSON.str "01310-100"), ("city", JSON.str "São Paulo")],
            Error := "" } :=
  (buscarAPI_success_envelope plainRequest Pick.send { done := false } "TestAPI"
    "https://test.com/api" { buf := [], cap := 1, recvWaiting := false }
    (mockResponse "https://test.com/api" 200 "\x7b\"cep\":\"01310-100\",\"city\":\"São Paulo\"\x7d")
    { Method := "GET", URL := "https://test.com/api" }
    { StatusCode := 200,
      Body := Except.ok "\x7b\"cep\":\"01310-100\",\"city\":\"São Paulo\"\x7d".data }
    "\x7b\"cep\":\"01310-100\",\"city\":\"São Paulo\"\x7d".data
    [("cep", JSON.str "01310-100"), ("city", JSON.str "São Paulo")]
    [("cep", JSON.str "01310-100"), ("city", JSON.str "São Paulo")]
    rfl rfl rfl (by rfl) (by rfl) rfl rfl).1

end Server

namespace Server

/-! ## Facts about the channel -/

/-- A plain send to a parked receiver hands the envelope over. -/
theorem chanSend_waiting (ch : Chan) (e : Resultado) (h : ch.recvWaiting = true) :
    chanSend ch e = (Delivery.sent e, { ch with recvWaiting := false, handed := some e }) := by
  simp [chanSend, h]

/-- A plain send with room in the buffer appends the envelope. -/
theorem chanSend_room (ch : Chan) (e : Resultado) (h1 : ch.recvWaiting = false)
    (h2 : ch.buf.length < ch.cap) :
    chanSend ch e = (Delivery.sent e, { ch with buf := ch.buf ++ [e] }) := by
  simp [chanSend, h1, h2]

/-- A plain send on a full channel with no receiver parks and leaves the channel as it is. -/
theorem chanSend_full (ch : Chan) (e : Resultado) (h : ch.canSend = false) :
    chanSend ch e = (Delivery.parked e, ch) := by
  simp only [Chan.canSend, Bool.or_eq_false_iff, decide_eq_false_iff_not] at h
  simp [chanSend, h.1, h.2]

/-- A plain send is delivered exactly when the channel can take it, and parks otherwise. -/
theorem chanSend_delivery (ch : Chan) (e : Resultado) :
    (ch.canSend = true → (chanSend ch e).1 = Delivery.sent e)
      ∧ (ch.canSend = false → (chanSend ch e).1 = Delivery.parked e) := by
  constructor
  · intro hcap
    simp only [Chan.canSend, Bool.or_eq_true, decide_eq_true_eq] at hcap
    by_cases hr : ch.recvWaiting = true
    · simp [chanSend, hr]
    · rcases hcap with h | h
      · exact absurd h hr
      · simp [chanSend, hr, h]
  · intro hcap
    rw [chanSend_full ch e hcap]

/-- A plain send leaves the buffer as it is or appends its envelope. -/
theorem chanSend_buf (ch : Chan) (e : Resultado) :
    (chanSend ch e).2.buf = ch.buf ∨ (chanSend ch e).2.buf = ch.buf ++ [e] := by
  unfold chanSend
  split_ifs <;> simp

/-- While the context is not done, the cancellable send is the plain send. -/
theorem selectSend_not_done (ctx : Context) (pick : Pick) (ch : Chan) (e : Resultado)
    (h : ctx.done = false) : selectSend ctx pick ch e = chanSend ch e := by
  cases hc : ch.canSend with
  | true => simp [selectSend, hc, h]
  | false => simp [selectSend, hc, h, chanSend_full ch e hc]

/-- With both cases ready and the send picked, the cancellable send is the plain send. -/
theorem selectSend_pick_send (ctx : Context) (ch : Chan) (e : Resultado)
    (hc : ch.canSend = true) : selectSend ctx Pick.send ch e = chanSend ch e := by
  cases hd : ctx.done <;> simp [selectSend, hc, hd]

/-- With both cases ready and the context picked, nothing is sent. -/
theorem selectSend_pick_done (ctx : Context) (ch : Chan) (e : Resultado)
    (hc : ch.canSend = true) (hd : ctx.done = true) :
    selectSend ctx Pick.done ch e = (Delivery.abandoned, ch) := by
  simp [selectSend, hc, hd]

/-- On a full channel a done context abandons the send. -/
theorem selectSend_full_done (ctx : Context) (pick : Pick) (ch : Chan) (e : Resultado)
    (hc : ch.canSend = false) (hd : ctx.done = true) :
    selectSend ctx pick ch e = (Delivery.abandoned, ch) := by
  simp [selectSend, hc, hd]

/-- A cancellable send leaves the buffer as it is or appends its envelope. -/
theorem selectSend_buf (ctx : Context) (pick : Pick) (ch : Chan) (e : Resultado) :
    (selectSend ctx pick ch e).2.buf = ch.buf ∨ (selectSend ctx pick ch e).2.buf = ch.buf ++ [e] := by
  unfold selectSend
  split_ifs
  · cases pick
    · exact chanSend_buf ch e
    · exact Or.inl rfl
  · exact chanSend_buf ch e
  · exact Or.inl rfl
  · exact Or.inl rfl

/-- A cancellable send ends delivered, abandoned, or parked with its envelope. -/
theorem selectSend_delivery_cases (ctx : Context) (pick : Pick) (ch : Chan) (e : Resultado) :
    (selectSend ctx pick ch e).1 = Delivery.sent e
      ∨ (selectSend ctx pick ch e).1 = Delivery.abandoned
      ∨ (selectSend ctx pick ch e).1 = Delivery.parked e := by
  unfold selectSend
  split_ifs with hc hd hd
  · cases pick
    · exact Or.inl ((chanSend_delivery ch e).1 hc)
    · exact Or.inr (Or.inl rfl)
  · exact Or.inl ((chanSend_delivery ch e).1 hc)
  · exact Or.inr (Or.inl rfl)
  · exact Or.inr (Or.inr rfl)

/-- A run whose four steps before the send did not all succeed ends in the plain send of the
failure envelope. -/
theorem buscarAPI_failure_run (newRequest : String → String → Except String Request)
    (pick : Pick) (ctx : Context) (source url : String) (ch : Chan) (apiClient : APIClient) :
    (∀ err, newRequest "GET" url = Except.error err →
        buscarAPI newRequest pick ctx source url ch apiClient
          = { ops := [Op.newRequest "GET" url,
                Op.plainSend { Source := source, Data := none, Error := err }],
              delivery := (chanSend ch { Source := source, Data := none, Error := err }).1,
              ch := (chanSend ch { Source := source, Data := none, Error := err }).2 })
      ∧ (∀ req err, newRequest "GET" url = Except.ok req → apiClient req = Except.error err →
        buscarAPI newRequest pick ctx source url ch apiClient
          = { ops := [Op.newRequest "GET" url, Op.clientDo req,
                Op.plainSend { Source := source, Data := none, Error := err }],
              delivery := (chanSend ch { Source := source, Data := none, Error := err }).1,
              ch := (chanSend ch { Source := source, Data := none, Error := err }).2 })
      ∧ (∀ req resp err, newRequest "GET" url = Except.ok req → apiClient req = Except.ok resp →
        resp.Body = Except.error err →
        buscarAPI newRequest pick ctx source url ch apiClient
          = { ops := [Op.newRequest "GET" url, Op.clientDo req, Op.readAll,
                Op.plainSend { Source := source, Data := none, Error := err }],
              delivery := (chanSend ch { Source := source, Data := none, Error := err }).1,
              ch := (chanSend ch { Source := source, Data := none, Error := err }).2 })
      ∧ (∀ req resp body err, newRequest "GET" url = Except.ok req →
        apiClient req = Except.ok resp → resp.Body = Except.ok body →
        jsonUnmarshalMap body = Except.error err →
        buscarAPI newRequest pick ctx source url ch apiClient
          = { ops := [Op.newRequest "GET" url, Op.clientDo req, Op.readAll, Op.unmarshal body,
                Op.plainSend { Source := source, Data := none, Error := err }],
              delivery := (chanSend ch { Source := source, Data := none, Error := err }).1,
              ch := (chanSend ch { Source := source, Data := none, Error := err }).2 })
      ∧ (∀ req resp body data, newRequest "GET" url = Except.ok req →
        apiClient req = Except.ok resp → resp.Body = Except.ok body →
        jsonUnmarshalMap body = Except.ok data →
        buscarAPI newRequest pick ctx source url ch apiClient
          = { ops := [Op.newRequest "GET" url, Op.clientDo req, Op.readAll, Op.unmarshal body,
                Op.selectSend { Source := source, Data := data, Error := "" }],
              delivery :=
                (selectSend ctx pick ch { Source := source, Data := data, Error := "" }).1,
              ch := (selectSend ctx pick ch { Source := source, Data := data, Error := "" }).2 }) := by
  refine ⟨?_, ?_, ?_, ?_, ?_⟩
  · intro err h; simp [buscarAPI, h]
  · intro req err h1 h2; simp [buscarAPI, h1, h2]
  · intro req resp err h1 h2 h3; simp [buscarAPI, h1, h2, h3]
  · intro req resp body err h1 h2 h3 h4; simp [buscarAPI, h1, h2, h3, h4]
  · intro req resp body data h1 h2 h3 h4; simp [buscarAPI, h1, h2, h3, h4]

end Server

namespace Server

/-- C3: when `apiClient.Do` fails with `err`, the only calls are the request construction,
`Do` and one plain send (no body is read, nothing is decoded). The envelope of that send has
the given source, `Error` equal to `err` and no data. It is delivered as soon as the channel
can take it: appended to the buffer when there is room, handed to the receiver when one is
parked; on a full channel the goroutine parks with it and the channel is unchanged. It is
never abandoned. -/
theorem buscarAPI_transport_error
    (newRequest : String → String → Except String Request) (pick : Pick) (ctx : Context)
    (source url : String) (ch : Chan) (apiClient : APIClient) (req : Request) (err : String)
    (hreq : newRequest "GET" url = Except.ok req)
    (hdo : apiClient req = Except.error err) :
    (buscarAPI newRequest pick ctx source url ch apiClient).ops
        = [Op.newRequest "GET" url, Op.clientDo req,
            Op.plainSend { Source := source, Data := none, Error := err }]
      ∧ (ch.canSend = true →
          (buscarAPI newRequest pick ctx source url ch apiClient).delivery
            = Delivery.sent { Source := source, Data := none, Error := err })
      ∧ (ch.recvWaiting = false → ch.buf.length < ch.cap →
          (buscarAPI newRequest pick ctx source url ch apiClient).ch
            = { ch with buf := ch.buf ++ [{ Source := source, Data := none, Error := err }] })
      ∧ (ch.recvWaiting = true →
          (buscarAPI newRequest pick ctx source url ch apiClient).ch
            = { ch with
                recvWaiting := false,
                handed := some { Source := source, Data := none, Error := err } })
      ∧ (ch.canSend = false →
          (buscarAPI newRequest pick ctx source url ch apiClient).delivery
              = Delivery.parked { Source := source, Data := none, Error := err }
            ∧ (buscarAPI newRequest pick ctx source url ch apiClient).ch = ch) := by
  have hrun := (buscarAPI_failure_run newRequest pick ctx source url ch apiClient).2.1
    req err hreq hdo
  rw [hrun]
  refine ⟨rfl, ?_, ?_, ?_, ?_⟩
  · intro hcap
    exact (chanSend_delivery ch _).1 hcap
  · intro hr hroom
    simp only [chanSend_room ch _ hr hroom]
  · intro hr
    simp only [chanSend_waiting ch _ hr]
  · intro hcap
    simp only [chanSend_full ch _ hcap, and_self]

/-- The run of `TestBuscarAPI_Error` satisfies C3: the failure envelope is in the channel. -/
theorem buscarAPI_transport_error_witness :
    (buscarAPI plainRequest Pick.send { done := false } "TestAPI" "https://test.com/api"
        { buf := [], cap := 1, recvWaiting := false }
        (mockError "https://test.com/api" "connection failed")).ch
      = { buf := [{ Source := "TestAPI", Data := none, Error := "connection failed" }],
          cap := 1, recvWaiting := false } :=
  (buscarAPI_transport_error plainRequest Pick.send { done := false } "TestAPI"
    "https://test.com/api" { buf := [], cap := 1, recvWaiting := false }
    (mockError "https://test.com/api" "connection failed")
    { Method := "GET", URL := "https://test.com/api" }
    "connection failed" rfl rfl).2.2.1 rfl (by decide)

/-- C4, as stated, fails on the body `null`: it is valid JSON and not an object, yet the
envelope delivered for it has an empty `Error`. -/
theorem buscarAPI_null_body_no_error :
    parseText "null".data = some JSON.null
      ∧ (buscarAPI plainRequest Pick.send { done := false } "TestAPI" "https://test.com/api"
          { buf := [], cap := 1, recvWaiting := false }
          (mockResponse "https://test.com/api" 200 "null")).delivery
        = Delivery.sent { Source := "TestAPI", Data := none, Error := "" }
      ∧ (buscarAPI plainRequest Pick.send { done := false } "TestAPI" "https://test.com/api"
          { buf := [], cap := 1, recvWaiting := false }
          (mockResponse "https://test.com/api" 200 "null")).ch.buf
        = [{ Source := "TestAPI", Data := none, Error := "" }] :=
  ⟨rfl, rfl, rfl⟩

/-- C4, amended: for every upstream body that is malformed, or is valid JSON of a kind other
than an object and other than `null`, the envelope `buscarAPI` sends has the given source, no
data and a non-empty decode error, and it is delivered when the channel can take it: it is
appended to the buffer unless a parked receiver takes it. -/
theorem buscarAPI_decode_error
    (newRequest : String → String → Except String Request) (pick : Pick) (ctx : Context)
    (source url : String) (ch : Chan) (apiClient : APIClient)
    (req : Request) (resp : Response) (body : List Char)
    (hreq : newRequest "GET" url = Except.ok req)
    (hdo : apiClient req = Except.ok resp)
    (hbody : resp.Body = Except.ok body)
    (hkind : parseText body = none ∨
      ∃ v, parseText body = some v ∧ v.kind ≠ "object" ∧ v.kind ≠ "null")
    (hcap : ch.canSend = true) :
    ∃ err, err ≠ "" ∧ jsonUnmarshalMap body = Except.error err ∧
      (buscarAPI newRequest pick ctx source url ch apiClient).delivery
        = Delivery.sent { Source := source, Data := none, Error := err } ∧
      (ch.recvWaiting = false →
        (buscarAPI newRequest pick ctx source url ch apiClient).ch.buf
          = ch.buf ++ [{ Source := source, Data := none, Error := err }]) ∧
      (ch.recvWaiting = true →
        (buscarAPI newRequest pick ctx source url ch apiClient).ch.handed
          = some { Source := source, Data := none, Error := err }) := by
  have key : ∃ err, err ≠ "" ∧ jsonUnmarshalMap body = Except.error err := by
    rcases hkind with h | ⟨v, h, hobj, hnull⟩
    · exact ⟨syntaxErrorText, by decide, by simp [jsonUnmarshalMap, h]⟩
    · refine ⟨"json: cannot unmarshal " ++ v.kind ++
          " into Go value of type map[string]interface \x7b\x7d", ?_, ?_⟩
      · intro hempty
        have := congrArg String.length hempty
        simp only [String.length_append] at this
        have h0 : "json: cannot unmarshal ".length = 23 := by decide
        have h1 : "".length = 0 := by decide
        omega
      · cases v with
        | null => exact absurd rfl hnull
        | obj kvs => exact absurd rfl hobj
        | bool b => simp [jsonUnmarshalMap, h]
        | num l => simp [jsonUnmarshalMap, h]
        | str s => simp [jsonUnmarshalMap, h]
        | arr xs => simp [jsonUnmarshalMap, h]
  obtain ⟨err, hne, hj⟩ := key
  have hrun := (buscarAPI_failure_run newRequest pick ctx source url ch apiClient).2.2.2.1
    req resp body err hreq hdo hbody hj
  refine ⟨err, hne, hj, ?_, ?_, ?_⟩
  · rw [hrun]
    exact (chanSend_delivery ch _).1 hcap
  · intro hr
    have hroom : ch.buf.length < ch.cap := by
      simpa [Chan.canSend, hr] using hcap
    rw [hrun]
    simp only [chanSend_room ch _ hr hroom]
  · intro hr
    rw [hrun]
    simp only [chanSend_waiting ch _ hr]

/-- The run of `TestBuscarAPI_InvalidJSON` satisfies the amended C4. -/
theorem buscarAPI_decode_error_witness :
    ∃ err, err ≠ "" ∧ jsonUnmarshalMap "invalid json".data = Except.error err ∧
      (buscarAPI plainRequest Pick.send { done := false } "TestAPI" "https://test.com/api"
          { buf := [], cap := 1, recvWaiting := false }
          (mockResponse "https://test.com/api" 200 "invalid json")).ch.buf
        = [{ Source := "TestAPI", Data := none, Error := err }] :=
  match buscarAPI_decode_error plainRequest Pick.send { done := false } "TestAPI"
    "https://test.com/api" { buf := [], cap := 1, recvWaiting := false }
    (mockResponse "https://test.com/api" 200 "invalid json")
    { Method := "GET", URL := "https://test.com/api" }
    { StatusCode := 200, Body := Except.ok "invalid json".data } "invalid json".data
    rfl rfl rfl (Or.inl (by rfl)) rfl with
  | ⟨err, hne, hj, _, hbuf, _⟩ => ⟨err, hne, hj, hbuf rfl⟩

end Server

namespace Server

/-- C5, as stated, fails on the success path: with a free buffer slot and a context
already cancelled, the `select` may take `ctx.Done()`, and then nothing is sent. -/
theorem buscarAPI_abandons_with_capacity :
    (buscarAPI plainRequest Pick.done { done := true } "ViaCEP"
        "http://viacep.com.br/ws/01310100/json/" { buf := [], cap := 2, recvWaiting := false }
        (mockResponse "http://viacep.com.br/ws/01310100/json/" 200 "\x7b\"cep\":\"01310-100\"\x7d")).delivery = Delivery.abandoned
      ∧ (buscarAPI plainRequest Pick.done { done := true } "ViaCEP"
        "http://viacep.com.br/ws/01310100/json/" { buf := [], cap := 2, recvWaiting := false }
        (mockResponse "http://viacep.com.br/ws/01310100/json/" 200 "\x7b\"cep\":\"01310-100\"\x7d")).ch.buf = [] :=
  ⟨rfl, rfl⟩

/-- C5, amended: every run of `buscarAPI` executes exactly one send statement and adds at most
one envelope to the buffer. The send is the cancellable `select` exactly when request
construction, the call, the body read and the decode all succeeded, and a plain send on the
four error returns. A plain send is delivered whenever the channel can take it, whether or
not the context is cancelled, and parks otherwise; it is never abandoned. The cancellable
send is delivered when the channel can take it and the context is not cancelled; when both
are ready either the send or the abandonment happens, as the `select` picks; on a full
channel it is abandoned once the context is cancelled and parks until then. -/
theorem buscarAPI_send_discipline
    (newRequest : String → String → Except String Request) (pick : Pick) (ctx : Context)
    (source url : String) (ch : Chan) (apiClient : APIClient) :
    countSends (buscarAPI newRequest pick ctx source url ch apiClient).ops = 1
      ∧ ((buscarAPI newRequest pick ctx source url ch apiClient).ch.buf = ch.buf
          ∨ ∃ e, (buscarAPI newRequest pick ctx source url ch apiClient).ch.buf = ch.buf ++ [e])
      ∧ ((∃ e, Op.selectSend e ∈ (buscarAPI newRequest pick ctx source url ch apiClient).ops) ↔
          ∃ req resp body data, newRequest "GET" url = Except.ok req ∧
            apiClient req = Except.ok resp ∧ resp.Body = Except.ok body ∧
            jsonUnmarshalMap body = Except.ok data)
      ∧ (∀ e, Op.plainSend e ∈ (buscarAPI newRequest pick ctx source url ch apiClient).ops →
          (ch.canSend = true →
            (buscarAPI newRequest pick ctx source url ch apiClient).delivery = Delivery.sent e)
          ∧ (ch.canSend = false →
            (buscarAPI newRequest pick ctx source url ch apiClient).delivery = Delivery.parked e))
      ∧ (∀ e, Op.selectSend e ∈ (buscarAPI newRequest pick ctx source url ch apiClient).ops →
          (ch.canSend = true → ctx.done = false →
            (buscarAPI newRequest pick ctx source url ch apiClient).delivery = Delivery.sent e)
          ∧ (ch.canSend = true → ctx.done = true → pick = Pick.send →
            (buscarAPI newRequest pick ctx source url ch apiClient).delivery = Delivery.sent e)
          ∧ (ch.canSend = true → ctx.done = true → pick = Pick.done →
            (buscarAPI newRequest pick ctx source url ch apiClient).delivery = Delivery.abandoned)
          ∧ (ch.canSend = false → ctx.done = true →
            (buscarAPI newRequest pick ctx source url ch apiClient).delivery = Delivery.abandoned)
          ∧ (ch.canSend = false → ctx.done = false →
            (buscarAPI newRequest pick ctx source url ch apiClient).delivery
              = Delivery.parked e)) := by
  cases hreq : newRequest "GET" url with
  | error err =>
    refine ⟨by simp [buscarAPI, hreq, countSends], ?_, ?_, ?_, ?_⟩
    · rcases chanSend_buf ch { Source := source, Data := none, Error := err } with h | h
      · exact Or.inl (by simpa [buscarAPI, hreq] using h)
      · exact Or.inr ⟨_, by simpa [buscarAPI, hreq] using h⟩
    · simp [buscarAPI, hreq]
    · intro e he
      have : e = { Source := source, Data := none, Error := err } := by
        simpa [buscarAPI, hreq] using he
      subst this
      simpa [buscarAPI, hreq] using chanSend_delivery ch _
    · intro e he
      simp [buscarAPI, hreq] at he
  | ok req =>
    cases hdo : apiClient req with
    | error err =>
      refine ⟨by simp [buscarAPI, hreq, hdo, countSends], ?_, ?_, ?_, ?_⟩
      · rcases chanSend_buf ch { Source := source, Data := none, Error := err } with h | h
        · exact Or.inl (by simpa [buscarAPI, hreq, hdo] using h)
        · exact Or.inr ⟨_, by simpa [buscarAPI, hreq, hdo] using h⟩
      · simp [buscarAPI, hreq, hdo]
      · intro e he
        have : e = { Source := source, Data := none, Error := err } := by
          simpa [buscarAPI, hreq, hdo] using he
        subst this
        simpa [buscarAPI, hreq, hdo] using chanSend_delivery ch _
      · intro e he
        simp [buscarAPI, hreq, hdo] at he
    | ok resp =>
      cases hbody : resp.Body with
      | error err =>
        refine ⟨by simp [buscarAPI, hreq, hdo, hbody, countSends], ?_, ?_, ?_, ?_⟩
        · rcases chanSend_buf ch { Source := source, Data := none, Error := err } with h | h
          · exact Or.inl (by simpa [buscarAPI, hreq, hdo, hbody] using h)
          · exact Or.inr ⟨_, by simpa [buscarAPI, hreq, hdo, hbody] using h⟩
        · simp [buscarAPI, hreq, hdo, hbody]
        · intro e he
          have : e = { Source := source, Data := none, Error := err } := by
            simpa [buscarAPI, hreq, hdo, hbody] using he
          subst this
          simpa [buscarAPI, hreq, hdo, hbody] using chanSend_delivery ch _
        · intro e he
          simp [buscarAPI, hreq, hdo, hbody] at he
      | ok body =>
        cases hj : jsonUnmarshalMap body with
        | error err =>
          refine ⟨by simp [buscarAPI, hreq, hdo, hbody, hj, countSends], ?_, ?_, ?_, ?_⟩
          · rcases chanSend_buf ch { Source := source, Data := none, Error := err } with h | h
            · exact Or.inl (by simpa [buscarAPI, hreq, hdo, hbody, hj] using h)
            · exact Or.inr ⟨_, by simpa [buscarAPI, hreq, hdo, hbody, hj] using h⟩
          · simp [buscarAPI, hreq, hdo, hbody, hj]
          · intro e he
            have : e = { Source := source, Data := none, Error := err } := by
              simpa [buscarAPI, hreq, hdo, hbody, hj] using he
            subst this
            simpa [buscarAPI, hreq, hdo, hbody, hj] using chanSend_delivery ch _
          · intro e he
            simp [buscarAPI, hreq, hdo, hbody, hj] at he
        | ok data =>
          refine ⟨by simp [buscarAPI, hreq, hdo, hbody, hj, countSends], ?_, ?_, ?_, ?_⟩
          · rcases selectSend_buf ctx pick ch { Source := source, Data := data, Error := "" }
              with h | h
            · exact Or.inl (by simpa [buscarAPI, hreq, hdo, hbody, hj] using h)
            · exact Or.inr ⟨_, by simpa [buscarAPI, hreq, hdo, hbody, hj] using h⟩
          · simp [buscarAPI, hreq, hdo, hbody, hj]
          · intro e he
            simp [buscarAPI, hreq, hdo, hbody, hj] at he
          · intro e he
            have : e = { Source := source, Data := data, Error := "" } := by
              simpa [buscarAPI, hreq, hdo, hbody, hj] using he
            subst this
            have hs := chanSend_delivery ch { Source := source, Data := data, Error := "" }
            refine ⟨?_, ?_, ?_, ?_, ?_⟩
            · intro hc hd
              simpa [buscarAPI, hreq, hdo, hbody, hj, selectSend, hc, hd] using hs.1 hc
            · intro hc hd hp
              simpa [buscarAPI, hreq, hdo, hbody, hj, selectSend, hc, hd, hp] using hs.1 hc
            · intro hc hd hp
              simp [buscarAPI, hreq, hdo, hbody, hj, selectSend, hc, hd, hp]
            · intro hc hd
              simp [buscarAPI, hreq, hdo, hbody, hj, selectSend, hc, hd]
            · intro hc hd
              simp [buscarAPI, hreq, hdo, hbody, hj, selectSend, hc, hd]

/-- The run of `TestBuscarAPI_Success` executes one send statement, by the amended C5. -/
theorem buscarAPI_send_discipline_witness :
    countSends (buscarAPI plainRequest Pick.send { done := false } "TestAPI"
      "https://test.com/api" { buf := [], cap := 1, recvWaiting := false }
      (mockResponse "https://test.com/api" 200 "\x7b\"cep\":\"01310-100\"\x7d")).ops = 1 :=
  (buscarAPI_send_discipline plainRequest Pick.send { done := false } "TestAPI"
    "https://test.com/api" { buf := [], cap := 1, recvWaiting := false }
    (mockResponse "https://test.com/api" 200 "\x7b\"cep\":\"01310-100\"\x7d")).1

end Server

namespace Server

/-- C8, as stated, fails: an upstream 404 whose body is a JSON object is delivered as a
success envelope, with the body's mapping as `Data` and an empty `Error`. -/
theorem buscarAPI_not_found_is_success :
    (buscarAPI plainRequest Pick.send { done := false } "BrasilAPI"
        "https://brasilapi.com.br/api/cep/v1/00000000" { buf := [], cap := 2, recvWaiting := false }
        (mockResponse "https://brasilapi.com.br/api/cep/v1/00000000" 404 "\x7b\"message\":\"CEP not found\"\x7d")).delivery
      = Delivery.sent
          { Source := "BrasilAPI",
            Data := some [("message", JSON.str "CEP not found")],
            Error := "" } :=
  rfl

/-- C8, amended: `buscarAPI` delivers a success envelope (`Data` set, `Error` empty) only when
the upstream call returned a response whose body is one JSON object; the status code of the
response is never looked at, so replacing it by any other changes nothing in the run. -/
theorem buscarAPI_success_only_object
    (newRequest : String → String → Except String Request) (pick : Pick) (ctx : Context)
    (source url : String) (ch : Chan) (apiClient : APIClient) :
    (∀ data, (buscarAPI newRequest pick ctx source url ch apiClient).delivery
          = Delivery.sent { Source := source, Data := some data, Error := "" } →
        ∃ req resp body kvs, newRequest "GET" url = Except.ok req ∧
          apiClient req = Except.ok resp ∧ resp.Body = Except.ok body ∧
          parseText body = some (JSON.obj kvs) ∧ toInterfaceMap kvs [] = Except.ok data)
      ∧ (∀ code : Nat,
          buscarAPI newRequest pick ctx source url ch
              (fun req => (apiClient req).map (fun resp => { resp with StatusCode := code }))
            = buscarAPI newRequest pick ctx source url ch apiClient) := by
  constructor
  · intro data hsent
    have hnot : ∀ (err : String) (d : Delivery),
        (d = Delivery.sent { Source := source, Data := none, Error := err } ∨
          d = Delivery.parked { Source := source, Data := none, Error := err }) →
        d ≠ Delivery.sent { Source := source, Data := some data, Error := "" } := by
      intro err d hd
      rcases hd with h | h <;> subst h <;> simp
    have hplain : ∀ (err : String),
        (chanSend ch { Source := source, Data := none, Error := err }).1
          ≠ Delivery.sent { Source := source, Data := some data, Error := "" } := by
      intro err
      apply hnot err
      cases hc : ch.canSend with
      | true => exact Or.inl ((chanSend_delivery ch _).1 hc)
      | false => exact Or.inr ((chanSend_delivery ch _).2 hc)
    cases hreq : newRequest "GET" url with
    | error err => simp only [buscarAPI, hreq] at hsent; exact absurd hsent (hplain err)
    | ok req =>
      cases hdo : apiClient req with
      | error err => simp only [buscarAPI, hreq, hdo] at hsent; exact absurd hsent (hplain err)
      | ok resp =>
        cases hbody : resp.Body with
        | error err =>
          simp only [buscarAPI, hreq, hdo, hbody] at hsent; exact absurd hsent (hplain err)
        | ok body =>
          cases hj : jsonUnmarshalMap body with
          | error err =>
            simp only [buscarAPI, hreq, hdo, hbody, hj] at hsent
            exact absurd hsent (hplain err)
          | ok d =>
            simp only [buscarAPI, hreq, hdo, hbody, hj] at hsent
            have hd : d = some data := by
              rcases selectSend_delivery_cases ctx pick ch
                { Source := source, Data := d, Error := "" } with h | h | h
              · rw [h] at hsent
                simpa using hsent
              · rw [h] at hsent
                exact absurd hsent (by simp)
              · rw [h] at hsent
                exact absurd hsent (by simp)
            subst hd
            obtain ⟨kvs, hp, hm⟩ := jsonUnmarshalMap_some body data hj
            exact ⟨req, resp, body, kvs, rfl, hdo, hbody, hp, hm⟩
  · intro code
    cases hreq : newRequest "GET" url with
    | error err => simp [buscarAPI, hreq]
    | ok req =>
      cases hdo : apiClient req with
      | error err => simp [buscarAPI, hreq, hdo, Except.map]
      | ok resp => simp [buscarAPI, hreq, hdo, Except.map]

/-- A 500 in place of a 200 leaves the run of `TestBuscarAPI_Success` as it is, by the
amended C8. -/
theorem buscarAPI_success_only_object_witness :
    buscarAPI plainRequest Pick.send { done := false } "TestAPI" "https://test.com/api"
        { buf := [], cap := 1, recvWaiting := false }
        (fun req => (mockResponse "https://test.com/api" 200 "\x7b\"cep\":\"01310-100\"\x7d" req).map
          (fun resp => { resp with StatusCode := 500 }))
      = buscarAPI plainRequest Pick.send { done := false } "TestAPI" "https://test.com/api"
        { buf := [], cap := 1, recvWaiting := false }
        (mockResponse "https://test.com/api" 200 "\x7b\"cep\":\"01310-100\"\x7d") :=
  (buscarAPI_success_only_object plainRequest Pick.send { done := false } "TestAPI"
    "https://test.com/api" { buf := [], cap := 1, recvWaiting := false }
    (mockResponse "https://test.com/api" 200 "\x7b\"cep\":\"01310-100\"\x7d")).2 500

/-! ## The claims about `handler` -/

/-- C6: once the `cep` parameter is present, the response is fixed by what the `select`
resolves to. A received envelope, success or failure alike, gives status 200, the header
`Content-Type: application/json` and the JSON encoding of that envelope as body. The
deadline gives status 504 and the plain-text body `timeout: nenhuma API respondeu em 1s`
followed by a newline, with no envelope in it. -/
theorem handler_response_by_outcome (r : HttpRequest) (hcep : queryGet r.query "cep" ≠ "") :
    (∀ res : Resultado, (handler r (Dispatch.received res)).1
        = { code := 200, header := [("Content-Type", "application/json")],
            body := encodeResultado res })
      ∧ (handler r Dispatch.deadline).1
        = { code := 504,
            header := [("Content-Type", "text/plain; charset=utf-8"),
              ("X-Content-Type-Options", "nosniff")],
            body := "timeout: nenhuma API respondeu em 1s\n".data } := by
  constructor
  · intro res
    simp [handler, hcep]
  · simp only [handler, hcep, if_false, httpError]
    rfl

/-- The request of `TestHandler_Timeout` satisfies C6. -/
theorem handler_response_by_outcome_witness :
    (handler { query := [("cep", ["01310100"])] } Dispatch.deadline).1.code = 504 :=
  congrArg ResponseWriter.code
    (handler_response_by_outcome { query := [("cep", ["01310100"])] } (by decide)).2

/-- C7: when the `cep` parameter is absent, or present with an empty first value, the
handler answers 400 with the plain-text body `cep é obrigatório` and a newline, whatever
the race would have given, and takes no dispatcher step: no context, no channel, no
`buscarAPI` goroutine (the only place an upstream call is made). -/
theorem handler_missing_cep (r : HttpRequest) (race : Dispatch)
    (h : r.query.lookup "cep" = none ∨ r.query.lookup "cep" = some [] ∨
      ∃ vs, r.query.lookup "cep" = some ("" :: vs)) :
    handler r race
      = ({ code := 400,
           header := [("Content-Type", "text/plain; charset=utf-8"),
             ("X-Content-Type-Options", "nosniff")],
           body := "cep é obrigatório\n".data }, []) := by
  have hq : queryGet r.query "cep" = "" := by
    rcases h with h | h | ⟨vs, h⟩ <;> simp [queryGet, h]
  simp only [handler, hq, if_true, httpError]
  rfl

/-- The request of `TestHandler_MissingCEP` satisfies C7. -/
theorem handler_missing_cep_witness :
    handler { query := [] } Dispatch.deadline
      = ({ code := 400,
           header := [("Content-Type", "text/plain; charset=utf-8"),
             ("X-Content-Type-Options", "nosniff")],
           body := "cep é obrigatório\n".data }, []) :=
  handler_missing_cep { query := [] } Dispatch.deadline (Or.inl rfl)

end Server

namespace Client

/-! ## The claim about `consultarCEP` -/

/-- C10, as stated, fails on a 2xx status other than 200: a `201 Created` response carrying a
well-formed envelope makes `consultarCEP` return the server error and print nothing. -/
theorem consultarCEP_rejects_201 :
    decodeResultado "\x7b\"source\":\"ViaCEP\",\"data\":\x7b\x7d\x7d\n".data
        = Except.ok { Source := "ViaCEP", Data := some [], Error := "" }
      ∧ consultarCEP showValue "01310100"
          (mockResponse "http://localhost:8080/consulta?cep=01310100" 201 "201 Created" "\x7b\"source\":\"ViaCEP\",\"data\":\x7b\x7d\x7d\n")
        = ([], some "erro do servidor: 201 Created") :=
  ⟨rfl, rfl⟩

/-- C10, amended: `consultarCEP` returns an error exactly when the GET fails, or the status
code is not 200, or the body does not decode as an envelope, and the message names the first
of these that occurs (`erro ao chamar o servidor: ` with the transport error, `erro do
servidor: ` with the status text, `erro ao decodificar resposta: ` with the decode error),
nothing being printed; in every other case, whatever the `error` and `data` fields of the
decoded envelope, it returns nil and the first line printed names the source. -/
theorem consultarCEP_outcome (fmtValue : JSON → String) (cep : String) (client : HTTPClient) :
    (∀ err, client ("http://localhost:8080/consulta?cep=" ++ cep) = Except.error err →
        consultarCEP fmtValue cep client = ([], some ("erro ao chamar o servidor: " ++ err)))
      ∧ (∀ resp, client ("http://localhost:8080/consulta?cep=" ++ cep) = Except.ok resp →
          resp.StatusCode ≠ 200 →
          consultarCEP fmtValue cep client = ([], some ("erro do servidor: " ++ resp.Status)))
      ∧ (∀ resp err, client ("http://localhost:8080/consulta?cep=" ++ cep) = Except.ok resp →
          resp.StatusCode = 200 → decodeResultado resp.Body = Except.error err →
          consultarCEP fmtValue cep client
            = ([], some ("erro ao decodificar resposta: " ++ err)))
      ∧ (∀ resp res, client ("http://localhost:8080/consulta?cep=" ++ cep) = Except.ok resp →
          resp.StatusCode = 200 → decodeResultado resp.Body = Except.ok res →
          (consultarCEP fmtValue cep client).2 = none ∧
          (consultarCEP fmtValue cep client).1
            = ("✅ Resposta recebida da: " ++ res.Source ++ "\n") ::
                (res.Data.getD []).map (dataLine fmtValue))
      ∧ ((consultarCEP fmtValue cep client).2 ≠ none ↔
          ((∃ err, client ("http://localhost:8080/consulta?cep=" ++ cep) = Except.error err)
            ∨ ∃ resp, client ("http://localhost:8080/consulta?cep=" ++ cep) = Except.ok resp ∧
                (resp.StatusCode ≠ 200 ∨ ∃ err, decodeResultado resp.Body = Except.error err))) := by
  refine ⟨?_, ?_, ?_, ?_, ?_⟩
  · intro err h
    simp [consultarCEP, h]
  · intro resp h hs
    simp [consultarCEP, h, hs]
  · intro resp err h hs hd
    simp [consultarCEP, h, hs, hd]
  · intro resp res h hs hd
    simp [consultarCEP, h, hs, hd]
  · cases h : client ("http://localhost:8080/consulta?cep=" ++ cep) with
    | error err => simp [consultarCEP, h]
    | ok resp =>
      by_cases hs : resp.StatusCode = 200
      · cases hd : decodeResultado resp.Body with
        | error err => simp [consultarCEP, h, hs, hd]
        | ok res => simp [consultarCEP, h, hs, hd]
      · simp [consultarCEP, h, hs]

/-- The run of `TestConsultarCEP_WithError` returns nil, by the amended C10. -/
theorem consultarCEP_outcome_witness :
    (consultarCEP showValue "99999999"
        (mockResponse "http://localhost:8080/consulta?cep=99999999" 200 "200 OK"
          "\x7b\"source\":\"BrasilAPI\",\"data\":null,\"error\":\"CEP não encontrado\"\x7d\n")).2
      = none :=
  ((consultarCEP_outcome showValue "99999999"
      (mockResponse "http://localhost:8080/consulta?cep=99999999" 200 "200 OK"
        "\x7b\"source\":\"BrasilAPI\",\"data\":null,\"error\":\"CEP não encontrado\"\x7d\n")).2.2.2.1
    { StatusCode := 200, Status := "200 OK",
      Body :=
        "\x7b\"source\":\"BrasilAPI\",\"data\":null,\"error\":\"CEP não encontrado\"\x7d\n".data }
    { Source := "BrasilAPI", Data := none, Error := "CEP não encontrado" }
    rfl rfl (by rfl)).1

end Client

theorem hexVal_hexDigit (k : Nat) (h : k < 16) : hexVal (hexDigit k) = some k := by
  interval_cases k <;> rfl

theorem hex4_low (n : Nat) (h : n < 256) :
    hex4 '0' '0' (hexDigit (n / 16)) (hexDigit (n % 16)) = some n := by
  have h1 : hexVal (hexDigit (n / 16)) = some (n / 16) := hexVal_hexDigit _ (by omega)
  have h2 : hexVal (hexDigit (n % 16)) = some (n % 16) := hexVal_hexDigit _ (by omega)
  have h0 : hexVal '0' = some 0 := by rfl
  simp only [hex4, h0, h1, h2]
  congr 1
  omega

theorem decodeEscape_plain (n : Nat) (h : n < 0xD800) (rest : List Char) :
    decodeEscape n rest = (Char.ofNat n, 0) := by
  have : isSurrogate n = false := by
    simp [isSurrogate]; omega
  simp [decodeEscape, this]

/-- One encoded character is read back as that character. -/
theorem scanString_escapeChar (c : Char) (fuel : Nat) (tail : List Char) :
    scanString (fuel + 1) (escapeChar c ++ tail) =
      (match scanString fuel tail with
        | none => none
        | some (s, out) => some (c :: s, out)) := by
  unfold escapeChar
  split_ifs with h1 h2 h3 h4 h5 h6 h7 h8 h9
  · subst h1; rfl
  · subst h2; rfl
  · have : c = Char.ofNat 8 := by rw [← h3, Char.ofNat_toNat]
    subst this; rfl
  · have : c = Char.ofNat 12 := by rw [← h4, Char.ofNat_toNat]
    subst this; rfl
  · subst h5; rfl
  · subst h6; rfl
  · subst h7; rfl
  · have hn : c.toNat < 256 := by
      rcases h8 with h | h | h | h
      · omega
      · subst h; decide
      · subst h; decide
      · subst h; decide
    have hx := hex4_low c.toNat hn
    have hd := decodeEscape_plain c.toNat (by omega) tail
    simp only [List.cons_append, List.nil_append, scanString]
    simp [hx, hd, Char.ofNat_toNat]
  · have hc : c = Char.ofNat 0x2028 ∨ c = Char.ofNat 0x2029 := by
      rcases h9 with h | h
      · left; rw [← h, Char.ofNat_toNat]
      · right; rw [← h, Char.ofNat_toNat]
    rcases hc with h | h <;> subst h <;> rfl
  · have hq : c ≠ '"' := h1
    have hb : c ≠ '\\' := h2
    have hlt : ¬ c.toNat < 0x20 := fun h => h8 (Or.inl h)
    show scanString (fuel + 1) (c :: tail) = _
    simp only [scanString, hq, hb, hlt, if_false]

/-- A string literal written by the encoder is read back unchanged. -/
theorem scanString_escapeChars (s : List Char) :
    ∀ (fuel : Nat) (rest : List Char), s.length < fuel →
      scanString fuel (escapeChars s ++ '"' :: rest) = some (s, rest) := by
  induction s with
  | nil =>
    intro fuel rest h
    obtain ⟨f, rfl⟩ : ∃ f, fuel = f + 1 := ⟨fuel - 1, by simp at h; omega⟩
    simp [escapeChars, scanString]
  | cons c cs ih =>
    intro fuel rest h
    obtain ⟨f, rfl⟩ : ∃ f, fuel = f + 1 := ⟨fuel - 1, by simp at h; omega⟩
    have hf : cs.length < f := by simp at h; omega
    rw [escapeChars, List.append_assoc, scanString_escapeChar, ih f rest hf]

theorem escapeChar_length_pos (c : Char) : 0 < (escapeChar c).length := by
  unfold escapeChar
  split_ifs <;> simp

theorem length_le_escapeChars (s : List Char) : s.length ≤ (escapeChars s).length := by
  induction s with
  | nil => simp [escapeChars]
  | cons c cs ih =>
    have := escapeChar_length_pos c
    simp only [escapeChars, List.length_cons, List.length_append]
    omega

/-- The text after an opening quote, as the parser meets it, is read back as the string. -/
theorem scanString_quote_tail (s : String) (rest : List Char) :
    scanString ((escapeChars s.data ++ '"' :: rest).length + 1)
        (escapeChars s.data ++ '"' :: rest) = some (s.data, rest) := by
  apply scanString_escapeChars
  have := length_le_escapeChars s.data
  simp only [List.length_append, List.length_cons]
  omega

theorem takeDigits_append (cs rest : List Char) (h : endsNumber rest = true) :
    takeDigits (cs ++ rest) = ((takeDigits cs).1, (takeDigits cs).2 ++ rest) := by
  induction cs with
  | nil =>
    cases rest with
    | nil => rfl
    | cons c r =>
      have : isDigit c = false := by
        simp only [endsNumber, Bool.not_eq_true', Bool.or_eq_false_iff] at h
        exact h.1.1.1
      simp [takeDigits, this]
  | cons c cs ih =>
    by_cases hd : isDigit c = true
    · simp [takeDigits, hd, ih]
    · simp [takeDigits, hd]

theorem lexInt_append (cs rest i r : List Char) (h : endsNumber rest = true)
    (hi : lexInt cs = some (i, r)) : lexInt (cs ++ rest) = some (i, r ++ rest) := by
  cases cs with
  | nil => simp [lexInt] at hi
  | cons d t =>
    simp only [lexInt] at hi
    simp only [List.cons_append, lexInt]
    split_ifs at hi with h0 h1
    · simp only [Option.some.injEq, Prod.mk.injEq] at hi
      simp [h0, hi.1.symm, hi.2.symm]
    · simp only [Option.some.injEq, Prod.mk.injEq] at hi
      simp [h0, h1, takeDigits_append t rest h, hi.1.symm, hi.2.symm]

theorem lexFrac_append (cs rest f r : List Char) (h : endsNumber rest = true)
    (hf : lexFrac cs = some (f, r)) : lexFrac (cs ++ rest) = some (f, r ++ rest) := by
  cases cs with
  | nil =>
    simp only [lexFrac, Option.some.injEq, Prod.mk.injEq] at hf
    obtain ⟨rfl, rfl⟩ := hf
    cases rest with
    | nil => rfl
    | cons c t =>
      have : c ≠ '.' := by
        simp only [endsNumber, Bool.not_eq_true', Bool.or_eq_false_iff, decide_eq_false_iff_not] at h
        exact h.1.1.2
      simp [lexFrac, this]
  | cons p t =>
    simp only [lexFrac] at hf
    simp only [List.cons_append, lexFrac]
    split_ifs at hf with hp
    · rw [if_pos hp, takeDigits_append t rest h]
      cases hd : (takeDigits t).1 with
      | nil =>
        rw [show takeDigits t = ([], (takeDigits t).2) from by rw [← hd]] at hf
        simp at hf
      | cons x xs =>
        rw [show takeDigits t = (x :: xs, (takeDigits t).2) from by rw [← hd]] at hf
        simp only [Option.some.injEq, Prod.mk.injEq] at hf
        simp [hf.1.symm, hf.2.symm]
    · rw [if_neg hp]
      simp only [Option.some.injEq, Prod.mk.injEq] at hf
      simp [hf.1.symm, hf.2.symm]

theorem takeDigits_pair (t : List Char) : takeDigits t = ((takeDigits t).1, (takeDigits t).2) := rfl

theorem lexExp_append (cs rest e r : List Char) (h : endsNumber rest = true)
    (he : lexExp cs = some (e, r)) : lexExp (cs ++ rest) = some (e, r ++ rest) := by
  cases cs with
  | nil =>
    simp only [lexExp, Option.some.injEq, Prod.mk.injEq] at he
    obtain ⟨rfl, rfl⟩ := he
    cases rest with
    | nil => rfl
    | cons c t =>
      have : ¬ (c = 'e' ∨ c = 'E') := by
        simp only [endsNumber, Bool.not_eq_true', Bool.or_eq_false_iff, decide_eq_false_iff_not] at h
        intro hc
        rcases hc with hc | hc
        · exact h.1.2 hc
        · exact h.2 hc
      simp [lexExp, this]
  | cons x t =>
    simp only [lexExp] at he
    simp only [List.cons_append, lexExp]
    split_ifs at he with hx
    · rw [if_pos hx]
      cases t with
      | nil => simp at he
      | cons s t1 =>
        simp only at he
        simp only [List.cons_append]
        split_ifs at he with hs
        · rw [if_pos hs, takeDigits_append t1 rest h]
          cases hd : (takeDigits t1).1 with
          | nil =>
            rw [takeDigits_pair t1, hd] at he
            simp at he
          | cons y ys =>
            rw [takeDigits_pair t1, hd] at he
            simp only [Option.some.injEq, Prod.mk.injEq] at he
            simp [he.1.symm, he.2.symm]
        · rw [if_neg hs]
          have happ := takeDigits_append (s :: t1) rest h
          rw [List.cons_append] at happ
          rw [happ]
          cases hd : (takeDigits (s :: t1)).1 with
          | nil =>
            rw [takeDigits_pair (s :: t1), hd] at he
            simp at he
          | cons y ys =>
            rw [takeDigits_pair (s :: t1), hd] at he
            simp only [Option.some.injEq, Prod.mk.injEq] at he
            simp [he.1.symm, he.2.symm]
    · rw [if_neg hx]
      simp only [Option.some.injEq, Prod.mk.injEq] at he
      simp [he.1.symm, he.2.symm]

/-- A literal that scans as a whole number still scans as that number when followed by text
that ends a number. -/
theorem lexNumber_append (lit rest : List Char) (h : endsNumber rest = true)
    (hl : lexNumber lit = some (lit, [])) : lexNumber (lit ++ rest) = some (lit, rest) := by
  cases lit with
  | nil => simp [lexNumber, lexInt] at hl
  | cons m t =>
    unfold lexNumber at hl ⊢
    simp only [List.cons_append] at hl ⊢
    by_cases hm : m = '-'
    · simp only [hm, if_true] at hl ⊢
      cases hi : lexInt t with
      | none => simp [hi] at hl
      | some ir =>
        obtain ⟨i, r1⟩ := ir
        rw [hi] at hl
        rw [lexInt_append t rest i r1 h hi]
        simp only at hl ⊢
        cases hf : lexFrac r1 with
        | none => simp [hf] at hl
        | some fr =>
          obtain ⟨f, r2⟩ := fr
          rw [hf] at hl
          rw [lexFrac_append r1 rest f r2 h hf]
          simp only at hl ⊢
          cases he : lexExp r2 with
          | none => simp [he] at hl
          | some er =>
            obtain ⟨e, r3⟩ := er
            rw [he] at hl
            rw [lexExp_append r2 rest e r3 h he]
            simp only [Option.some.injEq, Prod.mk.injEq] at hl ⊢
            obtain ⟨h1, h2⟩ := hl
            subst h2
            exact ⟨h1, rfl⟩
    · simp only [hm, if_false] at hl ⊢
      have happ : m :: (t ++ rest) = (m :: t) ++ rest := rfl
      cases hi : lexInt (m :: t) with
      | none => simp [hi] at hl
      | some ir =>
        obtain ⟨i, r1⟩ := ir
        rw [hi] at hl
        rw [happ, lexInt_append (m :: t) rest i r1 h hi]
        simp only at hl ⊢
        cases hf : lexFrac r1 with
        | none => simp [hf] at hl
        | some fr =>
          obtain ⟨f, r2⟩ := fr
          rw [hf] at hl
          rw [lexFrac_append r1 rest f r2 h hf]
          simp only at hl ⊢
          cases he : lexExp r2 with
          | none => simp [he] at hl
          | some er =>
            obtain ⟨e, r3⟩ := er
            rw [he] at hl
            rw [lexExp_append r2 rest e r3 h he]
            simp only [Option.some.injEq, Prod.mk.injEq] at hl ⊢
            obtain ⟨h1, h2⟩ := hl
            subst h2
            exact ⟨h1, rfl⟩

/-- A number literal starts with a minus sign or a digit. -/
theorem lexNumber_head (lit out : List Char) (r : List Char)
    (hl : lexNumber lit = some (out, r)) :
    ∃ c t, lit = c :: t ∧ (c = '-' ∨ isDigit c = true) := by
  cases lit with
  | nil => simp [lexNumber, lexInt] at hl
  | cons m t =>
    refine ⟨m, t, rfl, ?_⟩
    by_cases hm : m = '-'
    · exact Or.inl hm
    · right
      unfold lexNumber at hl
      simp only [hm, if_false] at hl
      cases hi : lexInt (m :: t) with
      | none => simp [hi] at hl
      | some ir =>
        simp only [lexInt] at hi
        split_ifs at hi with h0 h1
        · subst h0; rfl
        · exact h1

theorem isDigit_bounds (c : Char) (h : isDigit c = true) : 48 ≤ c.toNat ∧ c.toNat ≤ 57 := by
  simpa [isDigit] using h

/-- A character that starts a number literal is no white space and opens no other value. -/
theorem number_head_plain (c : Char) (h : c = '-' ∨ isDigit c = true) :
    isSpace c = false ∧ c ≠ '{' ∧ c ≠ '[' ∧ c ≠ '"' ∧ c ≠ 't' ∧ c ≠ 'f' ∧ c ≠ 'n' := by
  rcases h with h | h
  · subst h; decide
  · have hb := isDigit_bounds c h
    refine ⟨?_, ?_, ?_, ?_, ?_, ?_, ?_⟩
    · simp only [isSpace, Bool.or_eq_false_iff, decide_eq_false_iff_not]
      refine ⟨⟨⟨?_, ?_⟩, ?_⟩, ?_⟩ <;> (intro hc; subst hc; revert hb; decide)
    all_goals (intro hc; subst hc; revert hb; decide)

/-- A number literal followed by text that ends a number parses as that number. -/
theorem parseValue_num (lit rest : List Char) (fuel : Nat)
    (hl : lexNumber lit = some (lit, [])) (hr : endsNumber rest = true) :
    parseValue (fuel + 1) (lit ++ rest) = some (JSON.num lit, rest) := by
  obtain ⟨c, t, rfl, hc⟩ := lexNumber_head lit lit [] hl
  obtain ⟨h0, h1, h2, h3, h4, h5, h6⟩ := number_head_plain c hc
  have hlex := lexNumber_append (c :: t) rest hr hl
  simp only [List.cons_append] at hlex ⊢
  rw [parseValue]
  simp only [skipSpace, h0, Bool.false_eq_true, if_false]
  rw [if_neg h1, if_neg h2, if_neg h3, if_neg h4, if_neg h5, if_neg h6, hlex]

theorem marshalValue_ne_nil (v : JSON) (h : v.canonical = true) : marshalValue v ≠ [] := by
  cases v with
  | null => simp [marshalValue]
  | bool b => cases b <;> simp [marshalValue]
  | num lit =>
    simp only [JSON.canonical, Bool.and_eq_true, decide_eq_true_eq] at h
    obtain ⟨c, t, hl, _⟩ := lexNumber_head lit lit [] h.1
    simp [marshalValue, hl]
  | str s => simp [marshalValue, quote]
  | arr xs => simp [marshalValue]
  | obj kvs => simp [marshalValue]

theorem string_mk_data (s : String) : String.mk s.data = s := rfl

theorem parseValue_open_brace (fuel : Nat) (r : List Char) :
    parseValue (fuel + 1) ('{' :: r) =
      (match skipSpace r with
        | [] => none
        | c1 :: r1 =>
          if c1 = '}' then some (JSON.obj [], r1)
          else
            match parseMembers fuel (c1 :: r1) with
            | none => none
            | some (ms, out) => some (JSON.obj ms, out)) := by
  rw [parseValue]
  rfl

theorem parseValue_open_bracket (fuel : Nat) (r : List Char) :
    parseValue (fuel + 1) ('[' :: r) =
      (match skipSpace r with
        | [] => none
        | c1 :: r1 =>
          if c1 = ']' then some (JSON.arr [], r1)
          else
            match parseElems fuel (c1 :: r1) with
            | none => none
            | some (xs, out) => some (JSON.arr xs, out)) := by
  rw [parseValue]
  rfl

theorem parseValue_quote (fuel : Nat) (r : List Char) :
    parseValue (fuel + 1) ('"' :: r) =
      (match scanString (r.length + 1) r with
        | none => none
        | some (s, out) => some (JSON.str (String.mk s), out)) := by
  rw [parseValue]
  rfl

theorem parseValue_null (fuel : Nat) (rest : List Char) :
    parseValue (fuel + 1) ('n' :: 'u' :: 'l' :: 'l' :: rest) = some (JSON.null, rest) := by
  rw [parseValue]
  rfl

theorem parseValue_true (fuel : Nat) (rest : List Char) :
    parseValue (fuel + 1) ('t' :: 'r' :: 'u' :: 'e' :: rest) = some (JSON.bool true, rest) := by
  rw [parseValue]
  rfl

theorem parseValue_false (fuel : Nat) (rest : List Char) :
    parseValue (fuel + 1) ('f' :: 'a' :: 'l' :: 's' :: 'e' :: rest)
      = some (JSON.bool false, rest) := by
  rw [parseValue]
  rfl

/-- A string literal written by the encoder parses as that string. -/
theorem parseValue_str (fuel : Nat) (s : String) (rest : List Char) :
    parseValue (fuel + 1) (quote s ++ rest) = some (JSON.str s, rest) := by
  have h : quote s ++ rest = '"' :: (escapeChars s.data ++ '"' :: rest) := by
    simp [quote]
  rw [h, parseValue_quote, scanString_quote_tail]

theorem parseMembers_member (fuel : Nat) (k : String) (tail : List Char) :
    parseMembers (fuel + 1) (quote k ++ ':' :: tail) =
      (match parseValue fuel tail with
        | none => none
        | some (v, r3) =>
          match skipSpace r3 with
          | [] => none
          | d :: r4 =>
            if d = ',' then
              match parseMembers fuel r4 with
              | none => none
              | some (ms, out) => some ((k, v) :: ms, out)
            else if d = '}' then some ([(k, v)], r4)
            else none) := by
  have h : quote k ++ ':' :: tail = '"' :: (escapeChars k.data ++ '"' :: ':' :: tail) := by
    simp [quote]
  rw [h, parseMembers]
  have hs : skipSpace ('"' :: (escapeChars k.data ++ '"' :: ':' :: tail))
      = '"' :: (escapeChars k.data ++ '"' :: ':' :: tail) := rfl
  rw [hs]
  simp only [if_true, scanString_quote_tail]
  have hc : skipSpace (':' :: tail) = ':' :: tail := rfl
  rw [hc]
  simp only [if_true, string_mk_data]

theorem endsNumber_comma (r : List Char) : endsNumber (',' :: r) = true := rfl

theorem endsNumber_bracket (r : List Char) : endsNumber (']' :: r) = true := rfl

theorem endsNumber_brace (r : List Char) : endsNumber ('}' :: r) = true := rfl

/-- The first character of an encoded value is no white space. -/
theorem skipSpace_marshalValue (v : JSON) (h : v.canonical = true) (rest : List Char) :
    skipSpace (marshalValue v ++ rest) = marshalValue v ++ rest
      ∧ ∃ c t, marshalValue v ++ rest = c :: t ∧ c ≠ ']' ∧ c ≠ '}' := by
  cases v with
  | null => exact ⟨rfl, _, _, rfl, by decide, by decide⟩
  | bool b => cases b <;> exact ⟨rfl, _, _, rfl, by decide, by decide⟩
  | num lit =>
    simp only [JSON.canonical, Bool.and_eq_true, decide_eq_true_eq] at h
    obtain ⟨c, t, hl, hc⟩ := lexNumber_head lit lit [] h.1
    subst hl
    have hp := number_head_plain c hc
    refine ⟨?_, c, t ++ rest, rfl, ?_, ?_⟩
    · simp [marshalValue, skipSpace, hp.1]
    · rcases hc with hc | hc
      · subst hc; decide
      · have hb := isDigit_bounds c hc
        intro hx; subst hx; revert hb; decide
    · rcases hc with hc | hc
      · subst hc; decide
      · have hb := isDigit_bounds c hc
        intro hx; subst hx; revert hb; decide
  | str s => exact ⟨rfl, _, _, rfl, by decide, by decide⟩
  | arr xs => exact ⟨rfl, _, _, rfl, by decide, by decide⟩
  | obj kvs => exact ⟨rfl, _, _, rfl, by decide, by decide⟩

theorem marshalMembers_head (kv : String × JSON) (kvs : List (String × JSON)) :
    ∃ t, marshalMembers (kv :: kvs) = '"' :: t := by
  obtain ⟨k, v⟩ := kv
  cases kvs with
  | nil => exact ⟨escapeChars k.data ++ '"' :: ':' :: marshalValue v, by simp [marshalMembers, quote]⟩
  | cons y ys =>
    exact ⟨escapeChars k.data ++ '"' :: ':' :: (marshalValue v ++ ',' :: marshalMembers (y :: ys)),
      by simp [marshalMembers, quote]⟩

mutual
/-- Parsing undoes encoding, for a value. -/
theorem parse_marshalValue : ∀ (v : JSON), v.canonical = true →
    ∀ (fuel : Nat) (rest : List Char), endsNumber rest = true →
      (marshalValue v).length < fuel →
      parseValue fuel (marshalValue v ++ rest) = some (v, rest)
  | JSON.null, _, fuel, rest, _, hf => by
    obtain ⟨f, rfl⟩ : ∃ f, fuel = f + 1 := ⟨fuel - 1, by omega⟩
    exact parseValue_null f rest
  | JSON.bool b, _, fuel, rest, _, hf => by
    obtain ⟨f, rfl⟩ : ∃ f, fuel = f + 1 := ⟨fuel - 1, by omega⟩
    cases b
    · exact parseValue_false f rest
    · exact parseValue_true f rest
  | JSON.num lit, h, fuel, rest, hr, hf => by
    obtain ⟨f, rfl⟩ : ∃ f, fuel = f + 1 := ⟨fuel - 1, by omega⟩
    simp only [JSON.canonical, Bool.and_eq_true, decide_eq_true_eq] at h
    exact parseValue_num lit rest f h.1 hr
  | JSON.str s, _, fuel, rest, _, hf => by
    obtain ⟨f, rfl⟩ : ∃ f, fuel = f + 1 := ⟨fuel - 1, by omega⟩
    exact parseValue_str f s rest
  | JSON.arr [], _, fuel, rest, _, hf => by
    obtain ⟨f, rfl⟩ : ∃ f, fuel = f + 1 := ⟨fuel - 1, by omega⟩
    rfl
  | JSON.arr (x :: xs), h, fuel, rest, _, hf => by
    obtain ⟨f, rfl⟩ : ∃ f, fuel = f + 1 := ⟨fuel - 1, by omega⟩
    have hc : canonicalList (x :: xs) = true := by simpa [JSON.canonical] using h
    have hx : x.canonical = true := by
      simp only [canonicalList, Bool.and_eq_true] at hc
      exact hc.1
    have hlen : (marshalElems (x :: xs)).length + 1 < f := by
      simp only [marshalValue, List.length_cons, List.length_append, List.length_nil] at hf
      omega
    have ih := parse_marshalElems (x :: xs) (by simp) hc f rest hlen
    have htxt : marshalValue (JSON.arr (x :: xs)) ++ rest
        = '[' :: (marshalElems (x :: xs) ++ ']' :: rest) := by
      simp [marshalValue]
    rw [htxt, parseValue_open_bracket]
    have hhead : ∃ c t, marshalElems (x :: xs) ++ ']' :: rest = c :: t ∧ isSpace c = false ∧ c ≠ ']' := by
      cases xs with
      | nil =>
        obtain ⟨hs, c, t, hct, h1, _⟩ := skipSpace_marshalValue x hx (']' :: rest)
        refine ⟨c, t, by simpa [marshalElems] using hct, ?_, h1⟩
        rw [hct] at hs
        by_contra hsp
        simp only [skipSpace, Bool.not_eq_false] at hs hsp
        rw [if_pos hsp] at hs
        have := congrArg List.length hs
        have hle : (skipSpace t).length ≤ t.length := by
          clear hs hct this
          induction t with
          | nil => simp [skipSpace]
          | cons a as iha =>
            simp only [skipSpace]
            split_ifs
            · simp only [List.length_cons]; omega
            · simp
        simp only [List.length_cons] at this
        omega
      | cons y ys =>
        obtain ⟨hs, c, t, hct, h1, _⟩ :=
          skipSpace_marshalValue x hx (',' :: (marshalElems (y :: ys) ++ ']' :: rest))
        refine ⟨c, t, by simpa [marshalElems] using hct, ?_, h1⟩
        rw [hct] at hs
        by_contra hsp
        simp only [skipSpace, Bool.not_eq_false] at hs hsp
        rw [if_pos hsp] at hs
        have := congrArg List.length hs
        have hle : (skipSpace t).length ≤ t.length := by
          clear hs hct this
          induction t with
          | nil => simp [skipSpace]
          | cons a as iha =>
            simp only [skipSpace]
            split_ifs
            · simp only [List.length_cons]; omega
            · simp
        simp only [List.length_cons] at this
        omega
    obtain ⟨c, t, hct, hsp, hne⟩ := hhead
    rw [hct] at ih ⊢
    simp only [skipSpace, hsp, Bool.false_eq_true, if_false]
    rw [if_neg hne, ih]
  | JSON.obj [], _, fuel, rest, _, hf => by
    obtain ⟨f, rfl⟩ : ∃ f, fuel = f + 1 := ⟨fuel - 1, by omega⟩
    rfl
  | JSON.obj (kv :: kvs), h, fuel, rest, _, hf => by
    obtain ⟨f, rfl⟩ : ∃ f, fuel = f + 1 := ⟨fuel - 1, by omega⟩
    have hc : canonicalMembers (kv :: kvs) = true := by
      simp only [JSON.canonical, Bool.and_eq_true] at h
      exact h.2
    have hlen : (marshalMembers (kv :: kvs)).length + 1 < f := by
      simp only [marshalValue, List.length_cons, List.length_append, List.length_nil] at hf
      omega
    have ih := parse_marshalMembers (kv :: kvs) (by simp) hc f rest hlen
    have htxt : marshalValue (JSON.obj (kv :: kvs)) ++ rest
        = '{' :: (marshalMembers (kv :: kvs) ++ '}' :: rest) := by
      simp [marshalValue]
    rw [htxt, parseValue_open_brace]
    have hhead : ∃ t, marshalMembers (kv :: kvs) ++ '}' :: rest = '"' :: t := by
      obtain ⟨t, ht⟩ := marshalMembers_head kv kvs
      exact ⟨t ++ '}' :: rest, by rw [ht]; rfl⟩
    obtain ⟨t, ht⟩ := hhead
    rw [ht] at ih ⊢
    have hs : skipSpace ('"' :: t) = '"' :: t := rfl
    rw [hs]
    simp only
    rw [if_neg (by decide), ih]
/-- Parsing undoes encoding, for the elements of a non-empty array. -/
theorem parse_marshalElems : ∀ (xs : List JSON), xs ≠ [] → canonicalList xs = true →
    ∀ (fuel : Nat) (rest : List Char), (marshalElems xs).length + 1 < fuel →
      parseElems fuel (marshalElems xs ++ ']' :: rest) = some (xs, rest)
  | [], hne, _, _, _, _ => absurd rfl hne
  | [x], _, h, fuel, rest, hf => by
    obtain ⟨f, rfl⟩ : ∃ f, fuel = f + 1 := ⟨fuel - 1, by omega⟩
    have hx : x.canonical = true := by
      simp only [canonicalList, Bool.and_eq_true] at h
      exact h.1
    have hlen : (marshalValue x).length < f := by
      simp only [marshalElems] at hf
      omega
    have ih := parse_marshalValue x hx f (']' :: rest) (endsNumber_bracket rest) hlen
    rw [parseElems]
    simp only [marshalElems]
    rw [ih]
    rfl
  | x :: y :: ys, _, h, fuel, rest, hf => by
    obtain ⟨f, rfl⟩ : ∃ f, fuel = f + 1 := ⟨fuel - 1, by omega⟩
    have hx : x.canonical = true := by
      simp only [canonicalList, Bool.and_eq_true] at h
      exact h.1
    have hys : canonicalList (y :: ys) = true := by
      rw [canonicalList, Bool.and_eq_true] at h
      exact h.2
    have hpos : 0 < (marshalValue x).length :=
      List.length_pos.mpr (marshalValue_ne_nil x hx)
    have hl : (marshalElems (x :: y :: ys)).length
        = (marshalValue x).length + 1 + (marshalElems (y :: ys)).length := by
      simp only [marshalElems, List.length_append, List.length_cons]
      omega
    have ih1 := parse_marshalValue x hx f (',' :: (marshalElems (y :: ys) ++ ']' :: rest))
      (endsNumber_comma _) (by omega)
    have ih2 := parse_marshalElems (y :: ys) (by simp) hys f rest (by omega)
    have htxt : marshalElems (x :: y :: ys) ++ ']' :: rest
        = marshalValue x ++ ',' :: (marshalElems (y :: ys) ++ ']' :: rest) := by
      simp [marshalElems]
    rw [htxt, parseElems, ih1]
    have hs : ∀ r, skipSpace (',' :: r) = ',' :: r := fun _ => rfl
    simp only [hs, if_true, ih2]
/-- Parsing undoes encoding, for the members of a non-empty map. -/
theorem parse_marshalMembers : ∀ (kvs : List (String × JSON)), kvs ≠ [] →
    canonicalMembers kvs = true →
    ∀ (fuel : Nat) (rest : List Char), (marshalMembers kvs).length + 1 < fuel →
      parseMembers fuel (marshalMembers kvs ++ '}' :: rest) = some (kvs, rest)
  | [], hne, _, _, _, _ => absurd rfl hne
  | [(k, v)], _, h, fuel, rest, hf => by
    obtain ⟨f, rfl⟩ : ∃ f, fuel = f + 1 := ⟨fuel - 1, by omega⟩
    have hv : v.canonical = true := by
      simp only [canonicalMembers, Bool.and_eq_true] at h
      exact h.1
    have hlen : (marshalValue v).length < f := by
      simp only [marshalMembers, List.length_append, List.length_cons] at hf
      omega
    have ih := parse_marshalValue v hv f ('}' :: rest) (endsNumber_brace rest) hlen
    have htxt : marshalMembers [(k, v)] ++ '}' :: rest
        = quote k ++ ':' :: (marshalValue v ++ '}' :: rest) := by
      simp [marshalMembers]
    rw [htxt, parseMembers_member, ih]
    rfl
  | (k, v) :: y :: ys, _, h, fuel, rest, hf => by
    obtain ⟨f, rfl⟩ : ∃ f, fuel = f + 1 := ⟨fuel - 1, by omega⟩
    have hv : v.canonical = true := by
      simp only [canonicalMembers, Bool.and_eq_true] at h
      exact h.1
    have hys : canonicalMembers (y :: ys) = true := by
      rw [canonicalMembers, Bool.and_eq_true] at h
      exact h.2
    have hl : (marshalMembers ((k, v) :: y :: ys)).length
        = (quote k).length + 1 + (marshalValue v).length + 1
          + (marshalMembers (y :: ys)).length := by
      simp only [marshalMembers, List.length_append, List.length_cons]
      omega
    have hq : 0 < (quote k).length := by simp [quote]
    have ih1 := parse_marshalValue v hv f (',' :: (marshalMembers (y :: ys) ++ '}' :: rest))
      (endsNumber_comma _) (by omega)
    have ih2 := parse_marshalMembers (y :: ys) (by simp) hys f rest (by omega)
    have htxt : marshalMembers ((k, v) :: y :: ys) ++ '}' :: rest
        = quote k ++ ':' :: (marshalValue v ++ ',' :: (marshalMembers (y :: ys) ++ '}' :: rest)) := by
      simp [marshalMembers]
    rw [htxt, parseMembers_member, ih1]
    have hs : ∀ r, skipSpace (',' :: r) = ',' :: r := fun _ => rfl
    simp only [hs, if_true, ih2]
end

theorem keyLt_irrefl (a : List Char) : keyLt a a = false := by
  induction a with
  | nil => rfl
  | cons c cs ih => simp [keyLt, ih]

theorem keyLt_asymm (a : List Char) : ∀ b, keyLt a b = true → keyLt b a = false := by
  induction a with
  | nil =>
    intro b h
    cases b with
    | nil => rfl
    | cons d ds => rfl
  | cons c cs ih =>
    intro b h
    cases b with
    | nil => simp [keyLt] at h
    | cons d ds =>
      simp only [keyLt] at h ⊢
      by_cases h1 : c.toNat < d.toNat
      · have h2 : ¬ d.toNat < c.toNat := by omega
        have h3 : ¬ d.toNat = c.toNat := by omega
        simp [h2, h3]
      · by_cases h4 : c.toNat = d.toNat
        · rw [if_neg h1, if_pos h4] at h
          have h2 : ¬ d.toNat < c.toNat := by omega
          rw [if_neg h2, if_pos h4.symm]
          exact ih ds h
        · simp [h1, h4] at h

/-- Assigning a key above all present keys appends the entry. -/
theorem putKey_append (k : String) (w : JSON) (acc : GoMap)
    (h : ∀ p ∈ acc, keyLt p.1.data k.data = true) : putKey k w acc = acc ++ [(k, w)] := by
  induction acc with
  | nil => rfl
  | cons hd tl ih =>
    obtain ⟨k1, v1⟩ := hd
    have h1 : keyLt k1.data k.data = true := h (k1, v1) (by simp)
    have h2 : keyLt k.data k1.data = false := keyLt_asymm _ _ h1
    have h3 : k ≠ k1 := by
      intro he
      subst he
      rw [keyLt_irrefl] at h1
      exact absurd h1 (by simp)
    have ih' := ih (fun p hp => h p (by simp [hp]))
    simp [putKey, h2, h3, ih']

mutual
/-- Decoding into an `interface{}` leaves a canonical value as it is. -/
theorem toInterface_canonical : ∀ (v : JSON), v.canonical = true → toInterface v = Except.ok v
  | JSON.null, _ => rfl
  | JSON.bool _, _ => rfl
  | JSON.num lit, h => by
    simp only [JSON.canonical, Bool.and_eq_true, decide_eq_true_eq, Bool.not_eq_true'] at h
    simp [toInterface, h.2]
  | JSON.str _, _ => rfl
  | JSON.arr xs, h => by
    have hc : canonicalList xs = true := by simpa [JSON.canonical] using h
    simp [toInterface, toInterfaceList_canonical xs hc]
  | JSON.obj kvs, h => by
    simp only [JSON.canonical, Bool.and_eq_true] at h
    have := toInterfaceMap_canonical kvs h.2 h.1 [] (by simp)
    simp [toInterface, this]
/-- Decoding leaves a list of canonical values as it is. -/
theorem toInterfaceList_canonical : ∀ (xs : List JSON), canonicalList xs = true →
    toInterfaceList xs = Except.ok xs
  | [], _ => rfl
  | x :: xs, h => by
    simp only [canonicalList, Bool.and_eq_true] at h
    simp [toInterfaceList, toInterface_canonical x h.1, toInterfaceList_canonical xs h.2]
/-- Decoding canonical members with increasing keys above those of `acc` appends them. -/
theorem toInterfaceMap_canonical : ∀ (kvs : List (String × JSON)), canonicalMembers kvs = true →
    keysAscend kvs = true → ∀ (acc : GoMap),
    (∀ p ∈ acc, ∀ q ∈ kvs, keyLt p.1.data q.1.data = true) →
    toInterfaceMap kvs acc = Except.ok (acc ++ kvs)
  | [], _, _, acc, _ => by simp [toInterfaceMap]
  | (k, v) :: rest, h, hs, acc, hacc => by
    simp only [canonicalMembers, Bool.and_eq_true] at h
    simp only [keysAscend, Bool.and_eq_true, List.all_eq_true] at hs
    have hput : putKey k v acc = acc ++ [(k, v)] :=
      putKey_append k v acc (fun p hp => hacc p hp (k, v) (by simp))
    have ih := toInterfaceMap_canonical rest h.2 hs.2 (acc ++ [(k, v)]) (by
      intro p hp q hq
      rcases List.mem_append.mp hp with hp | hp
      · exact hacc p hp q (by simp [hq])
      · simp only [List.mem_singleton] at hp
        subst hp
        exact hs.1 q hq)
    rw [toInterfaceMap, toInterface_canonical v h.1]
    simp only [hput, ih]
    simp
end

/-- The JSON object the encoder writes for an envelope: its members in field order. -/
theorem encodeResultado_eq (res : Server.Resultado) :
    Server.encodeResultado res
      = '{' :: (marshalMembers
          (("source", JSON.str res.Source) :: ("data", dataValue res.Data) ::
            (if res.Error = "" then [] else [("error", JSON.str res.Error)]))
          ++ ['}', '\n']) := by
  have hd : marshalMap res.Data = marshalValue (dataValue res.Data) := by
    cases res.Data <;> rfl
  have h1 : "\x7b\"source\":".data = '{' :: (quote "source" ++ [':']) := rfl
  have h2 : ",\"data\":".data = ',' :: (quote "data" ++ [':']) := rfl
  have h3 : ",\"error\":".data = ',' :: (quote "error" ++ [':']) := rfl
  unfold Server.encodeResultado
  rw [hd, h1, h2, h3]
  by_cases he : res.Error = ""
  · simp [he, marshalMembers, marshalValue]
  · simp [he, marshalMembers, marshalValue]

/-- The decoder's first value of an encoded non-empty object followed by a newline. -/
theorem parseFirst_object (ms : List (String × JSON)) (hne : ms ≠ [])
    (hc : canonicalMembers ms = true) :
    parseFirst ('{' :: (marshalMembers ms ++ ['}', '\n'])) = some (JSON.obj ms) := by
  obtain ⟨kv, kvs, rfl⟩ : ∃ kv kvs, ms = kv :: kvs := by
    cases ms with
    | nil => exact absurd rfl hne
    | cons a b => exact ⟨a, b, rfl⟩
  have hparse := parse_marshalMembers (kv :: kvs) hne hc
    (('{' :: (marshalMembers (kv :: kvs) ++ ['}', '\n'])).length) ['\n']
    (by simp only [List.length_cons, List.length_append, List.length_nil]; omega)
  obtain ⟨t, ht⟩ := marshalMembers_head kv kvs
  unfold parseFirst
  rw [parseValue_open_brace]
  rw [ht] at hparse ⊢
  have hs : skipSpace (('"' :: t) ++ ['}', '\n']) = '"' :: (t ++ ['}', '\n']) := rfl
  rw [hs]
  simp only
  rw [if_neg (by decide)]
  have : '"' :: (t ++ ['}', '\n']) = '"' :: t ++ ['}', '\n'] := rfl
  rw [this, hparse]
  rfl

theorem dataValue_canonical (data : Option GoMap) (h : canonicalData data = true) :
    (dataValue data).canonical = true := by
  cases data with
  | none => rfl
  | some m => exact h

/-- Storing an encoded `data` value in a nil map field gives the map back. -/
theorem storeMap_dataValue (data : Option GoMap) (h : canonicalData data = true) :
    Client.storeMap none (dataValue data) = Except.ok data := by
  cases data with
  | none => rfl
  | some m =>
    simp only [canonicalData, JSON.canonical, Bool.and_eq_true] at h
    have := toInterfaceMap_canonical m h.2 h.1 [] (by simp)
    simp [Client.storeMap, dataValue, this]

theorem takeDigits_fst_digits (cs : List Char) : ∀ c ∈ (takeDigits cs).1, isDigit c = true := by
  induction cs with
  | nil => simp [takeDigits]
  | cons d t ih =>
    by_cases hd : isDigit d = true
    · simp only [takeDigits, hd, if_true, List.mem_cons]
      intro c hc
      rcases hc with hc | hc
      · rw [hc]; exact hd
      · exact ih c hc
    · simp [takeDigits, hd]

/-- The text starts with no digit. -/
theorem takeDigits_of_noDigit (tail : List Char)
    (h : ∀ c t, tail = c :: t → isDigit c = false) : takeDigits tail = ([], tail) := by
  cases tail with
  | nil => rfl
  | cons c t => simp [takeDigits, h c t rfl]

theorem takeDigits_digits_append (ds tail : List Char) (hds : ∀ c ∈ ds, isDigit c = true)
    (h : ∀ c t, tail = c :: t → isDigit c = false) : takeDigits (ds ++ tail) = (ds, tail) := by
  induction ds with
  | nil => exact takeDigits_of_noDigit tail h
  | cons d t ih =>
    have hd : isDigit d = true := hds d (by simp)
    have := ih (fun c hc => hds c (by simp [hc]))
    simp [takeDigits, hd, this]

theorem lexInt_self (cs i r : List Char) (hi : lexInt cs = some (i, r)) :
    (∃ d t, i = d :: t ∧ isDigit d = true) ∧
      ∀ tail, (∀ c t, tail = c :: t → isDigit c = false) → lexInt (i ++ tail) = some (i, tail) := by
  cases cs with
  | nil => simp [lexInt] at hi
  | cons d t =>
    simp only [lexInt] at hi
    split_ifs at hi with h0 h1
    · simp only [Option.some.injEq, Prod.mk.injEq] at hi
      obtain ⟨rfl, rfl⟩ := hi
      refine ⟨⟨d, [], rfl, by subst h0; rfl⟩, ?_⟩
      intro tail _
      simp [lexInt, h0]
    · simp only [Option.some.injEq, Prod.mk.injEq] at hi
      obtain ⟨rfl, rfl⟩ := hi
      refine ⟨⟨d, _, rfl, h1⟩, ?_⟩
      intro tail ht
      have := takeDigits_digits_append (takeDigits t).1 tail (takeDigits_fst_digits t) ht
      simp [lexInt, h0, h1, this]

theorem lexFrac_self (cs f r : List Char) (hf : lexFrac cs = some (f, r)) :
    (f = [] ∨ ∃ t, f = '.' :: t) ∧
      ∀ tail, (∀ c t, tail = c :: t → isDigit c = false ∧ c ≠ '.') →
        lexFrac (f ++ tail) = some (f, tail) := by
  cases cs with
  | nil =>
    simp only [lexFrac, Option.some.injEq, Prod.mk.injEq] at hf
    obtain ⟨rfl, rfl⟩ := hf
    refine ⟨Or.inl rfl, ?_⟩
    intro tail ht
    cases tail with
    | nil => rfl
    | cons c t => simp [lexFrac, (ht c t rfl).2]
  | cons p t =>
    simp only [lexFrac] at hf
    split_ifs at hf with hp
    · cases hd : (takeDigits t).1 with
      | nil =>
        rw [takeDigits_pair t, hd] at hf
        simp at hf
      | cons x xs =>
        rw [takeDigits_pair t, hd] at hf
        simp only [Option.some.injEq, Prod.mk.injEq] at hf
        obtain ⟨rfl, rfl⟩ := hf
        refine ⟨Or.inr ⟨_, by rw [hp]⟩, ?_⟩
        intro tail ht
        have hdig : ∀ c ∈ x :: xs, isDigit c = true := by
          rw [← hd]; exact takeDigits_fst_digits t
        have := takeDigits_digits_append (x :: xs) tail hdig (fun c t h => (ht c t h).1)
        simp only [List.cons_append] at this
        simp [lexFrac, hp, this]
    · simp only [Option.some.injEq, Prod.mk.injEq] at hf
      obtain ⟨rfl, rfl⟩ := hf
      refine ⟨Or.inl rfl, ?_⟩
      intro tail ht
      cases tail with
      | nil => rfl
      | cons c t => simp [lexFrac, (ht c t rfl).2]

theorem lexExp_self (cs e r : List Char) (he : lexExp cs = some (e, r)) :
    (e = [] ∨ ∃ x t, e = x :: t ∧ (x = 'e' ∨ x = 'E')) ∧ lexExp e = some (e, []) := by
  cases cs with
  | nil =>
    simp only [lexExp, Option.some.injEq, Prod.mk.injEq] at he
    obtain ⟨rfl, rfl⟩ := he
    exact ⟨Or.inl rfl, rfl⟩
  | cons x t =>
    simp only [lexExp] at he
    split_ifs at he with hx
    · cases t with
      | nil => simp at he
      | cons s t1 =>
        simp only at he
        split_ifs at he with hs
        · cases hd : (takeDigits t1).1 with
          | nil =>
            rw [takeDigits_pair t1, hd] at he
            simp at he
          | cons y ys =>
            rw [takeDigits_pair t1, hd] at he
            simp only [Option.some.injEq, Prod.mk.injEq] at he
            obtain ⟨rfl, rfl⟩ := he
            refine ⟨Or.inr ⟨x, _, rfl, hx⟩, ?_⟩
            have hdig : ∀ c ∈ y :: ys, isDigit c = true := by
              rw [← hd]; exact takeDigits_fst_digits t1
            have := takeDigits_digits_append (y :: ys) [] hdig (by simp)
            simp only [List.append_nil] at this
            simp [lexExp, hx, hs, this]
        · cases hd : (takeDigits (s :: t1)).1 with
          | nil =>
            rw [takeDigits_pair (s :: t1), hd] at he
            simp at he
          | cons y ys =>
            rw [takeDigits_pair (s :: t1), hd] at he
            simp only [Option.some.injEq, Prod.mk.injEq] at he
            obtain ⟨rfl, rfl⟩ := he
            refine ⟨Or.inr ⟨x, _, rfl, hx⟩, ?_⟩
            have hdig : ∀ c ∈ y :: ys, isDigit c = true := by
              rw [← hd]; exact takeDigits_fst_digits (s :: t1)
            have hys : s = y := by
              by_cases hsd : isDigit s = true
              · simp [takeDigits, hsd] at hd
                exact hd.1
              · simp [takeDigits, hsd] at hd
            have hys' : ¬ (y = '+' ∨ y = '-') := hys ▸ hs
            have := takeDigits_digits_append (y :: ys) [] hdig (by simp)
            simp only [List.append_nil] at this
            simp [lexExp, hx, hys', this]
    · simp only [Option.some.injEq, Prod.mk.injEq] at he
      obtain ⟨rfl, rfl⟩ := he
      exact ⟨Or.inl rfl, rfl⟩

theorem isDigit_ne (c : Char) (h : isDigit c = true) :
    c ≠ '-' ∧ c ≠ '.' ∧ c ≠ 'e' ∧ c ≠ 'E' := by
  have hb := isDigit_bounds c h
  refine ⟨?_, ?_, ?_, ?_⟩ <;> (intro hc; subst hc; revert hb; decide)

/-- The three parts of a scanned number scan again as the same parts. -/
theorem lexParts_self (b i r1 f r2 e r3 : List Char) (hi : lexInt b = some (i, r1))
    (hf : lexFrac r1 = some (f, r2)) (he : lexExp r2 = some (e, r3)) :
    (∃ d t, i = d :: t ∧ isDigit d = true) ∧
      lexInt (i ++ f ++ e) = some (i, f ++ e) ∧ lexFrac (f ++ e) = some (f, e) ∧
      lexExp e = some (e, []) := by
  obtain ⟨hd, hint⟩ := lexInt_self _ _ _ hi
  obtain ⟨hfs, hfrac⟩ := lexFrac_self _ _ _ hf
  obtain ⟨hes, hexp⟩ := lexExp_self _ _ _ he
  have he_head : ∀ c t, e = c :: t → isDigit c = false ∧ c ≠ '.' := by
    intro c t hct
    rcases hes with hes | ⟨x, t', hx, hxe⟩
    · rw [hes] at hct; exact absurd hct (by simp)
    · rw [hx] at hct
      simp only [List.cons.injEq] at hct
      rw [← hct.1]
      rcases hxe with hxe | hxe <;> subst hxe <;> exact ⟨by rfl, by decide⟩
  have hfe_head : ∀ c t, f ++ e = c :: t → isDigit c = false := by
    intro c t hct
    rcases hfs with hfs | ⟨t', hft⟩
    · rw [hfs] at hct
      exact (he_head c t hct).1
    · rw [hft] at hct
      simp only [List.cons_append, List.cons.injEq] at hct
      rw [← hct.1]; rfl
  refine ⟨hd, ?_, hfrac _ he_head, hexp⟩
  rw [List.append_assoc]
  exact hint _ hfe_head

/-- The literal that the number scanner returns scans as a whole number. -/
theorem lexNumber_self (cs lit r : List Char) (h : lexNumber cs = some (lit, r)) :
    lexNumber lit = some (lit, []) := by
  cases cs with
  | nil => simp [lexNumber, lexInt] at h
  | cons m t =>
    unfold lexNumber at h
    by_cases hm : m = '-'
    · simp only [hm, if_true] at h
      cases hi : lexInt t with
      | none => simp [hi] at h
      | some ir =>
        obtain ⟨i, r1⟩ := ir
        rw [hi] at h
        simp only at h
        cases hf : lexFrac r1 with
        | none => simp [hf] at h
        | some fr =>
          obtain ⟨f, r2⟩ := fr
          rw [hf] at h
          simp only at h
          cases he : lexExp r2 with
          | none => simp [he] at h
          | some er =>
            obtain ⟨e, r3⟩ := er
            rw [he] at h
            simp only [Option.some.injEq, Prod.mk.injEq] at h
            obtain ⟨hlit, _⟩ := h
            obtain ⟨_, h1, h2, h3⟩ := lexParts_self _ _ _ _ _ _ _ hi hf he
            have hl : lit = '-' :: (i ++ f ++ e) := by rw [← hlit]; simp
            rw [hl]
            unfold lexNumber
            simp only [if_true, h1, h2, h3]
            simp
    · simp only [hm, if_false] at h
      cases hi : lexInt (m :: t) with
      | none => simp [hi] at h
      | some ir =>
        obtain ⟨i, r1⟩ := ir
        rw [hi] at h
        simp only at h
        cases hf : lexFrac r1 with
        | none => simp [hf] at h
        | some fr =>
          obtain ⟨f, r2⟩ := fr
          rw [hf] at h
          simp only at h
          cases he : lexExp r2 with
          | none => simp [he] at h
          | some er =>
            obtain ⟨e, r3⟩ := er
            rw [he] at h
            simp only [Option.some.injEq, Prod.mk.injEq] at h
            obtain ⟨hlit, _⟩ := h
            obtain ⟨⟨d, it, hid, hdd⟩, h1, h2, h3⟩ := lexParts_self _ _ _ _ _ _ _ hi hf he
            have hne : d ≠ '-' := (isDigit_ne d hdd).1
            have hl : lit = d :: (it ++ f ++ e) := by rw [← hlit, hid]; simp
            have hl2 : d :: (it ++ f ++ e) = i ++ f ++ e := by rw [hid]; simp
            rw [hl]
            unfold lexNumber
            simp only [hne, if_false]
            rw [hl2]
            simp only [h1, h2, h3]
            simp

/-- Every number in a parsed value is a literal that scans as itself. -/
theorem parse_lexed (fuel : Nat) :
    (∀ cs v r, parseValue fuel cs = some (v, r) → v.lexed = true) ∧
      (∀ cs xs r, parseElems fuel cs = some (xs, r) → lexedList xs = true) ∧
      (∀ cs ms r, parseMembers fuel cs = some (ms, r) → lexedMembers ms = true) := by
  induction fuel with
  | zero =>
    refine ⟨?_, ?_, ?_⟩ <;> intro cs v r h
    · simp [parseValue] at h
    · simp [parseElems] at h
    · simp [parseMembers] at h
  | succ n ih =>
    obtain ⟨ihv, ihe, ihm⟩ := ih
    refine ⟨?_, ?_, ?_⟩
    · intro cs v r h
      rw [parseValue] at h
      split at h
      · simp at h
      · split_ifs at h
        · split at h
          · simp at h
          · split_ifs at h
            · simp only [Option.some.injEq, Prod.mk.injEq] at h
              rw [← h.1]; rfl
            · split at h
              · simp at h
              · rename_i ms out hms
                simp only [Option.some.injEq, Prod.mk.injEq] at h
                rw [← h.1]
                simpa [JSON.lexed] using ihm _ _ _ hms
        · split at h
          · simp at h
          · split_ifs at h
            · simp only [Option.some.injEq, Prod.mk.injEq] at h
              rw [← h.1]; rfl
            · split at h
              · simp at h
              · rename_i xs out hxs
                simp only [Option.some.injEq, Prod.mk.injEq] at h
                rw [← h.1]
                simpa [JSON.lexed] using ihe _ _ _ hxs
        · split at h
          · simp at h
          · simp only [Option.some.injEq, Prod.mk.injEq] at h
            rw [← h.1]; rfl
        · split at h
          · simp at h
          · simp only [Option.some.injEq, Prod.mk.injEq] at h
            rw [← h.1]; rfl
        · split at h
          · simp at h
          · simp only [Option.some.injEq, Prod.mk.injEq] at h
            rw [← h.1]; rfl
        · split at h
          · simp at h
          · simp only [Option.some.injEq, Prod.mk.injEq] at h
            rw [← h.1]; rfl
        · split at h
          · simp at h
          · rename_i lit out hlex
            simp only [Option.some.injEq, Prod.mk.injEq] at h
            rw [← h.1]
            simp only [JSON.lexed, decide_eq_true_eq]
            exact lexNumber_self _ _ _ hlex
    · intro cs xs r h
      rw [parseElems] at h
      split at h
      · simp at h
      · rename_i v r0 hv
        split at h
        · simp at h
        · split_ifs at h
          · split at h
            · simp at h
            · rename_i vs out hvs
              simp only [Option.some.injEq, Prod.mk.injEq] at h
              rw [← h.1]
              simp [lexedList, ihv _ _ _ hv, ihe _ _ _ hvs]
          · simp only [Option.some.injEq, Prod.mk.injEq] at h
            rw [← h.1]
            simp [lexedList, ihv _ _ _ hv]
    · intro cs ms r h
      rw [parseMembers] at h
      split at h
      · simp at h
      · split_ifs at h
        · split at h
          · simp at h
          · split at h
            · simp at h
            · split_ifs at h
              · split at h
                · simp at h
                · rename_i v r3 hv
                  split at h
                  · simp at h
                  · split_ifs at h
                    · split at h
                      · simp at h
                      · rename_i ms' out hms
                        simp only [Option.some.injEq, Prod.mk.injEq] at h
                        rw [← h.1]
                        simp [lexedMembers, ihv _ _ _ hv, ihm _ _ _ hms]
                    · simp only [Option.some.injEq, Prod.mk.injEq] at h
                      rw [← h.1]
                      simp [lexedMembers, ihv _ _ _ hv]

theorem char_toNat_inj (c d : Char) (h : c.toNat = d.toNat) : c = d := by
  rw [← Char.ofNat_toNat c, ← Char.ofNat_toNat d, h]

theorem keyLt_trans (a : List Char) :
    ∀ b c, keyLt a b = true → keyLt b c = true → keyLt a c = true := by
  induction a with
  | nil =>
    intro b c hab hbc
    cases b with
    | nil => simp [keyLt] at hab
    | cons y ys =>
      cases c with
      | nil => simp [keyLt] at hbc
      | cons z zs => rfl
  | cons x xs ih =>
    intro b c hab hbc
    cases b with
    | nil => simp [keyLt] at hab
    | cons y ys =>
      cases c with
      | nil => simp [keyLt] at hbc
      | cons z zs =>
        simp only [keyLt] at hab hbc ⊢
        by_cases h1 : x.toNat < y.toNat
        · by_cases h2 : y.toNat < z.toNat
          · rw [if_pos (by omega)]
          · by_cases h3 : y.toNat = z.toNat
            · rw [if_pos (by omega)]
            · rw [if_neg h2, if_neg h3] at hbc
              exact absurd hbc (by simp)
        · by_cases h4 : x.toNat = y.toNat
          · rw [if_neg h1, if_pos h4] at hab
            by_cases h2 : y.toNat < z.toNat
            · rw [if_pos (by omega)]
            · by_cases h3 : y.toNat = z.toNat
              · rw [if_neg h2, if_pos h3] at hbc
                rw [if_neg (by omega), if_pos (by omega)]
                exact ih ys zs hab hbc
              · rw [if_neg h2, if_neg h3] at hbc
                exact absurd hbc (by simp)
          · rw [if_neg h1, if_neg h4] at hab
            exact absurd hab (by simp)

theorem keyLt_total (a : List Char) :
    ∀ b, keyLt a b = false → a ≠ b → keyLt b a = true := by
  induction a with
  | nil =>
    intro b h hne
    cases b with
    | nil => exact absurd rfl hne
    | cons y ys => simp [keyLt] at h
  | cons x xs ih =>
    intro b h hne
    cases b with
    | nil => rfl
    | cons y ys =>
      simp only [keyLt] at h ⊢
      by_cases h1 : x.toNat < y.toNat
      · rw [if_pos h1] at h
        exact absurd h (by simp)
      · by_cases h4 : x.toNat = y.toNat
        · rw [if_neg h1, if_pos h4] at h
          have hxy : x = y := char_toNat_inj x y h4
          have hne' : xs ≠ ys := by
            intro he
            exact hne (by rw [hxy, he])
          rw [if_neg (by omega), if_pos h4.symm]
          exact ih ys h hne'
        · rw [if_pos (by omega)]

theorem string_data_ne (k k1 : String) (h : k ≠ k1) : k.data ≠ k1.data := by
  intro he
  apply h
  cases k; cases k1
  simp only at he
  rw [he]

/-- Assignment keeps the keys in increasing order. -/
theorem keysAscend_putKey (k : String) (w : JSON) (acc : GoMap) (h : keysAscend acc = true) :
    keysAscend (putKey k w acc) = true := by
  induction acc with
  | nil => rfl
  | cons hd tl ih =>
    obtain ⟨k1, v1⟩ := hd
    simp only [keysAscend, Bool.and_eq_true, List.all_eq_true] at h
    unfold putKey
    split_ifs with h1 h2
    · simp only [keysAscend, Bool.and_eq_true, List.all_eq_true, List.mem_cons]
      refine ⟨?_, h.1, h.2⟩
      intro p hp
      rcases hp with hp | hp
      · rw [hp]; exact h1
      · exact keyLt_trans _ _ _ h1 (h.1 p hp)
    · subst h2
      simp only [keysAscend, Bool.and_eq_true, List.all_eq_true]
      exact ⟨h.1, h.2⟩
    · have hlt : keyLt k1.data k.data = true :=
        keyLt_total _ _ (by simpa using h1) (string_data_ne k k1 h2)
      simp only [keysAscend, Bool.and_eq_true, List.all_eq_true]
      refine ⟨?_, ih h.2⟩
      intro p hp
      have hk : p.1 ∈ (putKey k w tl).map Prod.fst := List.mem_map_of_mem _ hp
      rw [mem_keys_putKey] at hk
      rcases hk with hk | hk
      · rw [hk]; exact hlt
      · obtain ⟨q, hq, hqp⟩ := List.mem_map.mp hk
        rw [← hqp]
        exact h.1 q hq

/-- Assignment of a canonical value keeps all values canonical. -/
theorem canonicalMembers_putKey (k : String) (w : JSON) (acc : GoMap)
    (hw : w.canonical = true) (h : canonicalMembers acc = true) :
    canonicalMembers (putKey k w acc) = true := by
  induction acc with
  | nil => simp [putKey, canonicalMembers, hw]
  | cons hd tl ih =>
    obtain ⟨k1, v1⟩ := hd
    simp only [canonicalMembers, Bool.and_eq_true] at h
    unfold putKey
    split_ifs with h1 h2
    · simp [canonicalMembers, hw, h.1, h.2]
    · simp [canonicalMembers, hw, h.2]
    · simp [canonicalMembers, h.1, ih h.2]

mutual
/-- What decoding into an `interface{}` returns is canonical. -/
theorem toInterface_yields_canonical : ∀ (v : JSON), v.lexed = true →
    ∀ w, toInterface v = Except.ok w → w.canonical = true
  | JSON.null, _, w, h => by
    simp only [toInterface, Except.ok.injEq] at h
    rw [← h]; rfl
  | JSON.bool _, _, w, h => by
    simp only [toInterface, Except.ok.injEq] at h
    rw [← h]; rfl
  | JSON.num lit, hl, w, h => by
    simp only [JSON.lexed, decide_eq_true_eq] at hl
    simp only [toInterface] at h
    split_ifs at h with ho
    simp only [Except.ok.injEq] at h
    rw [← h]
    simp [JSON.canonical, hl, ho]
  | JSON.str _, _, w, h => by
    simp only [toInterface, Except.ok.injEq] at h
    rw [← h]; rfl
  | JSON.arr xs, hl, w, h => by
    have hx : lexedList xs = true := by simpa [JSON.lexed] using hl
    simp only [toInterface] at h
    split at h
    · simp at h
    · rename_i ys hys
      simp only [Except.ok.injEq] at h
      rw [← h]
      simpa [JSON.canonical] using toInterfaceList_yields_canonical xs hx ys hys
  | JSON.obj kvs, hl, w, h => by
    have hx : lexedMembers kvs = true := by simpa [JSON.lexed] using hl
    simp only [toInterface] at h
    split at h
    · simp at h
    · rename_i m hm
      simp only [Except.ok.injEq] at h
      rw [← h]
      have := toInterfaceMap_yields_canonical kvs hx [] m rfl rfl hm
      simp [JSON.canonical, this.1, this.2]
/-- What decoding a list returns is canonical. -/
theorem toInterfaceList_yields_canonical : ∀ (xs : List JSON), lexedList xs = true →
    ∀ ys, toInterfaceList xs = Except.ok ys → canonicalList ys = true
  | [], _, ys, h => by
    simp only [toInterfaceList, Except.ok.injEq] at h
    rw [← h]; rfl
  | x :: xs, hl, ys, h => by
    simp only [lexedList, Bool.and_eq_true] at hl
    simp only [toInterfaceList] at h
    split at h
    · simp at h
    · rename_i y hy
      split at h
      · simp at h
      · rename_i ys' hys
        simp only [Except.ok.injEq] at h
        rw [← h]
        simp [canonicalList, toInterface_yields_canonical x hl.1 y hy,
          toInterfaceList_yields_canonical xs hl.2 ys' hys]
/-- Decoding members into a canonical map returns a canonical map. -/
theorem toInterfaceMap_yields_canonical : ∀ (kvs : List (String × JSON)),
    lexedMembers kvs = true → ∀ (acc m : GoMap), keysAscend acc = true →
    canonicalMembers acc = true → toInterfaceMap kvs acc = Except.ok m →
    keysAscend m = true ∧ canonicalMembers m = true
  | [], _, acc, m, ha, hc, h => by
    simp only [toInterfaceMap, Except.ok.injEq] at h
    rw [← h]; exact ⟨ha, hc⟩
  | (k, v) :: rest, hl, acc, m, ha, hc, h => by
    simp only [lexedMembers, Bool.and_eq_true] at hl
    rw [toInterfaceMap] at h
    split at h
    · simp at h
    · rename_i w hw
      have hwc := toInterface_yields_canonical v hl.1 w hw
      exact toInterfaceMap_yields_canonical rest hl.2 (putKey k w acc) m
        (keysAscend_putKey k w acc ha) (canonicalMembers_putKey k w acc hwc hc) h
end

/-- The map `json.Unmarshal` returns is nil or canonical. -/
theorem jsonUnmarshalMap_canonical (body : List Char) (d : Option GoMap)
    (h : jsonUnmarshalMap body = Except.ok d) : canonicalData d = true := by
  unfold jsonUnmarshalMap at h
  split at h
  · simp at h
  · simp only [Except.ok.injEq] at h
    rw [← h]; rfl
  · rename_i kvs hp
    split at h
    · simp at h
    · rename_i m hm
      simp only [Except.ok.injEq] at h
      rw [← h]
      have hlex : (JSON.obj kvs).lexed = true := by
        unfold parseText at hp
        split at hp
        · simp at hp
        · rename_i v rest hv
          split_ifs at hp
          simp only [Option.some.injEq] at hp
          rw [← hp]
          exact (parse_lexed _).1 _ _ _ hv
      have hx : lexedMembers kvs = true := by simpa [JSON.lexed] using hlex
      have := toInterfaceMap_yields_canonical kvs hx [] m rfl rfl hm
      simp [canonicalData, JSON.canonical, this.1, this.2]
  · simp at h

namespace Server

/-- The envelope of a run of `buscarAPI` carries the given source and canonical data. -/
theorem buscarAPI_envelope (newRequest : String → String → Except String Request)
    (pick : Pick) (ctx : Context) (source url : String) (ch : Chan) (apiClient : APIClient) :
    ∃ e : Resultado, e.Source = source ∧ canonicalData e.Data = true ∧
      ((buscarAPI newRequest pick ctx source url ch apiClient).delivery = Delivery.sent e
        ∨ (buscarAPI newRequest pick ctx source url ch apiClient).delivery = Delivery.abandoned
        ∨ (buscarAPI newRequest pick ctx source url ch apiClient).delivery = Delivery.parked e) := by
  have hplain : ∀ e : Resultado, (chanSend ch e).1 = Delivery.sent e
      ∨ (chanSend ch e).1 = Delivery.abandoned ∨ (chanSend ch e).1 = Delivery.parked e := by
    intro e
    cases hc : ch.canSend with
    | true => exact Or.inl ((chanSend_delivery ch e).1 hc)
    | false => exact Or.inr (Or.inr ((chanSend_delivery ch e).2 hc))
  cases hreq : newRequest "GET" url with
  | error err =>
    refine ⟨{ Source := source, Data := none, Error := err }, rfl, rfl, ?_⟩
    simpa [buscarAPI, hreq] using hplain _
  | ok req =>
    cases hdo : apiClient req with
    | error err =>
      refine ⟨{ Source := source, Data := none, Error := err }, rfl, rfl, ?_⟩
      simpa [buscarAPI, hreq, hdo] using hplain _
    | ok resp =>
      cases hbody : resp.Body with
      | error err =>
        refine ⟨{ Source := source, Data := none, Error := err }, rfl, rfl, ?_⟩
        simpa [buscarAPI, hreq, hdo, hbody] using hplain _
      | ok body =>
        cases hj : jsonUnmarshalMap body with
        | error err =>
          refine ⟨{ Source := source, Data := none, Error := err }, rfl, rfl, ?_⟩
          simpa [buscarAPI, hreq, hdo, hbody, hj] using hplain _
        | ok data =>
          refine ⟨{ Source := source, Data := data, Error := "" }, rfl,
            jsonUnmarshalMap_canonical body data hj, ?_⟩
          simpa [buscarAPI, hreq, hdo, hbody, hj] using selectSend_delivery_cases ctx pick ch _

end Server

/-- Decoding what the server's encoder writes for an envelope with canonical data gives the
same source, data and error. -/
theorem decodeResultado_encodeResultado (res : Server.Resultado)
    (h : canonicalData res.Data = true) :
    Client.decodeResultado (Server.encodeResultado res)
      = Except.ok { Source := res.Source, Data := res.Data, Error := res.Error } := by
  obtain ⟨src, data, err⟩ := res
  have hd := dataValue_canonical data h
  have hstore := storeMap_dataValue data h
  rw [encodeResultado_eq]
  unfold Client.decodeResultado
  by_cases he : err = ""
  · subst he
    rw [parseFirst_object _ (by simp) (by simp [canonicalMembers, JSON.canonical, hd])]
    simp [Client.storeMembers, Client.fieldOf, Client.storeString, hstore]
  · rw [parseFirst_object _ (by simp) (by simp [he, canonicalMembers, JSON.canonical, hd])]
    simp [he, Client.storeMembers, Client.fieldOf, Client.storeString, hstore]

/-- C9: round trip between the server's encoder and the client's decoder. For every envelope
whose `Data` is nil or a map of decoded JSON values (numbers that are JSON literals in the
float64 range, maps with their keys in order), with any `Source` and any `Error`, decoding
the bytes that `json.NewEncoder(w).Encode` writes with the client's
`json.NewDecoder(..).Decode` succeeds and gives the same `Source`, the same `Data` and the
same `Error`. Every map that the server's `json.Unmarshal` returns is of that kind, so this
holds of every envelope that `buscarAPI` delivers. -/
theorem resultado_wire_roundtrip :
    (∀ res : Server.Resultado, canonicalData res.Data = true →
        Client.decodeResultado (Server.encodeResultado res)
          = Except.ok { Source := res.Source, Data := res.Data, Error := res.Error })
      ∧ (∀ (body : List Char) (d : Option GoMap),
          jsonUnmarshalMap body = Except.ok d → canonicalData d = true)
      ∧ (∀ (newRequest : String → String → Except String Server.Request) (pick : Server.Pick)
          (ctx : Server.Context) (source url : String) (ch : Server.Chan)
          (apiClient : Server.APIClient) (e : Server.Resultado),
          (Server.buscarAPI newRequest pick ctx source url ch apiClient).delivery
              = Server.Delivery.sent e →
            Client.decodeResultado (Server.encodeResultado e)
              = Except.ok { Source := e.Source, Data := e.Data, Error := e.Error }) := by
  refine ⟨decodeResultado_encodeResultado, jsonUnmarshalMap_canonical, ?_⟩
  intro newRequest pick ctx source url ch apiClient e hsent
  obtain ⟨e', _, hcan, hd⟩ :=
    Server.buscarAPI_envelope newRequest pick ctx source url ch apiClient
  rw [hsent] at hd
  rcases hd with hd | hd | hd
  · simp only [Server.Delivery.sent.injEq] at hd
    rw [hd]
    exact decodeResultado_encodeResultado e' hcan
  · exact absurd hd (by simp)
  · exact absurd hd (by simp)

set_option exponentiation.threshold 2000 in
/-- The envelope of `TestConsultarCEP_Success`, with an error text added, survives the wire. -/
theorem resultado_wire_roundtrip_witness :
    Client.decodeResultado (Server.encodeResultado
        { Source := "BrasilAPI",
          Data := some [("cep", JSON.str "01310-100"), ("city", JSON.str "São Paulo"),
            ("ibge", JSON.num ['3', '5', '5', '0', '3', '0', '8'])],
          Error := "<aviso>" })
      = Except.ok
        { Source := "BrasilAPI",
          Data := some [("cep", JSON.str "01310-100"), ("city", JSON.str "São Paulo"),
            ("ibge", JSON.num ['3', '5', '5', '0', '3', '0', '8'])],
          Error := "<aviso>" } :=
  resultado_wire_roundtrip.1 _ (by rfl)
